import Mathlib

/-
Verification of the Bible ETL repository: a shallow embedding of the two
XML verse extractors (DOM dialect and streaming milestone dialect) and of
the annotation engine (safety flags, familiarity heuristic, softmax
distributions, theme classification, fallback embeddings), together with
proofs of the specified properties.

Modelling conventions:
* Python strings are modelled as `List Char` (`Str`), so that whitespace
  handling, regex-like scanning and number parsing can be verified by
  structural recursion.
* XML documents are modelled as trees of elements.  Following the lxml
  conventions used by the source, an element carries `text` (the character
  data directly after its opening tag) and `tail` (the character data
  directly after its closing tag); `iterparse` is modelled by the event
  list of a tree, with `text` available at the start event and `tail` at
  the end event.  Element names are local names (the source strips
  namespaces with `localname`; the model works on local names directly).
* Machine floats are modelled exactly: ℚ for the familiarity heuristic,
  ℝ for the embedding/softmax arithmetic.
-/

namespace Bible

/-- Python strings, modelled as lists of characters. -/
abbrev Str := List Char

/-- View a Lean string literal as a `Str`. -/
def lit (x : String) : Str := x.toList

/-- ASCII whitespace, the characters matched by Python `\s` on this data. -/
def isPySpace (c : Char) : Bool :=
  c = ' ' || c = '\t' || c = '\n' || c = '\r' || c = '\x0b' || c = '\x0c'

/-- Python `str.strip()`: drop whitespace from both ends. -/
def pyStrip (t : Str) : Str :=
  ((t.dropWhile isPySpace).reverse.dropWhile isPySpace).reverse

/-- Helper for `collapseWs`; the flag records whether the previous character
was whitespace (so a whitespace run yields a single space). -/
def collapseAux : Bool → Str → Str
  | _, [] => []
  | prevWs, c :: rest =>
    if isPySpace c then
      if prevWs then collapseAux true rest else ' ' :: collapseAux true rest
    else c :: collapseAux false rest

/-- Model of `re.sub(r"\s+", " ", t)`: every maximal whitespace run becomes
one space. -/
def collapseWs (t : Str) : Str := collapseAux false t

/-- Decimal digit characters. -/
def digitChar : Nat → Char
  | 0 => '0' | 1 => '1' | 2 => '2' | 3 => '3' | 4 => '4'
  | 5 => '5' | 6 => '6' | 7 => '7' | 8 => '8' | 9 => '9'
  | _ => '*'

/-- Helper for `natDigits`: fuel-bounded decimal expansion (the fuel makes
the recursion structural; any fuel above the value is enough). -/
def natDigitsCore : Nat → Nat → Str
  | 0, _ => []
  | fuel + 1, n =>
    if n < 10 then [digitChar n]
    else natDigitsCore fuel (n / 10) ++ [digitChar (n % 10)]

/-- Decimal digits of a natural number, most significant first. -/
def natDigits (n : Nat) : Str := natDigitsCore (n + 1) n

/-- Numeric value of a digit character. -/
def digitVal (c : Char) : Nat := c.toNat - 48

/-- Value of a digit string (most significant first); 0 on the empty string. -/
def digitsVal (t : Str) : Nat := t.foldl (fun a c => 10 * a + digitVal c) 0

/-- Model of Python `int(re.sub(r"\D", "", s) or "0")`: strip the non-digit
characters and read the rest as a number, defaulting to 0. -/
def pyIntDigits (t : Str) : Nat := digitsVal (t.filter Char.isDigit)

/-- Model of Python `str.split(sep)` for a one-character separator. -/
def splitOnChar (sep : Char) : Str → List Str
  | [] => [[]]
  | c :: rest =>
    if c = sep then [] :: splitOnChar sep rest
    else
      match splitOnChar sep rest with
      | [] => [[c]]
      | g :: gs => (c :: g) :: gs

/-- Characters matched by Python `\w` (ASCII model). -/
def isWordChar (c : Char) : Bool := c.isAlphanum || c = '_'

/-- Helper for `countWordRuns`; the flag records whether we are inside a
word-character run. -/
def runsAux : Bool → Str → Nat
  | _, [] => 0
  | inRun, c :: rest =>
    if isWordChar c then (if inRun then 0 else 1) + runsAux true rest
    else runsAux false rest

/-- Model of `len(re.findall(r"\w+", t))`: the number of maximal
word-character runs. -/
def countWordRuns (t : Str) : Nat := runsAux false t

/-- Signed decimal representation of an integer. -/
def intStr (z : Int) : Str :=
  if z < 0 then '-' :: natDigits z.natAbs else natDigits z.natAbs

/-- Model of Python `int()` applied to a string: optional surrounding
whitespace, an optional sign, then decimal digits (digit-group underscores
are not modelled; the repository never feeds them). `none` models the
`ValueError` branch. -/
def pyToInt (t : Str) : Option Int :=
  match pyStrip t with
  | '+' :: ds => if ds ≠ [] ∧ ds.all Char.isDigit then some (digitsVal ds) else none
  | '-' :: ds => if ds ≠ [] ∧ ds.all Char.isDigit then some (-(digitsVal ds : Int)) else none
  | ds => if ds ≠ [] ∧ ds.all Char.isDigit then some (digitsVal ds) else none

/-- An option viewed as a zero- or one-element list. -/
def optList : Option Str → List Str
  | none => []
  | some t => [t]

/-- Concatenation of a list of strings (Python `"".join`). -/
def joinStrs (ts : List Str) : Str := ts.foldr (· ++ ·) []

-- ===== XML model =====

/-- XML element tree in the lxml style: local name, attributes, text after
the opening tag, children, and tail text after the closing tag. -/
inductive XNode where
  | el (name : Str) (attrs : List (Str × Str)) (text : Option Str)
       (children : List XNode) (tail : Option Str)

def XNode.nameOf : XNode → Str
  | .el n _ _ _ _ => n

def XNode.attrsOf : XNode → List (Str × Str)
  | .el _ a _ _ _ => a

def XNode.textOf : XNode → Option Str
  | .el _ _ t _ _ => t

def XNode.childrenOf : XNode → List XNode
  | .el _ _ _ cs _ => cs

def XNode.tailOf : XNode → Option Str
  | .el _ _ _ _ tl => tl

/-- Model of `elem.attrib.get(k)`: value of the first attribute named `k`. -/
def getAttrL (attrs : List (Str × Str)) (k : Str) : Option Str :=
  (attrs.find? (fun p => decide (p.1 = k))).map (·.2)

/-- Attribute lookup on a node. -/
def getAttr (x : XNode) (k : Str) : Option Str := getAttrL x.attrsOf k

mutual
/-- Model of `node.itertext()`: the text of the node followed by, for each
child in order, the child's `itertext` and then the child's tail.  The
node's own tail is not included. -/
def itertext : XNode → List Str
  | .el _ _ t cs _ => optList t ++ itertextChildren cs

def itertextChildren : List XNode → List Str
  | [] => []
  | x :: xs => itertext x ++ optList x.tailOf ++ itertextChildren xs
end

/-- Model of `extract_plain_text` (import_kjv.py line 34, etl line 98,
import_kjv_osis.py line 39): join the mixed content, collapse whitespace
runs and trim. -/
def extract_plain_text (x : XNode) : Str :=
  pyStrip (collapseWs (joinStrs (itertext x)))

mutual
/-- All element nodes of a tree in document (preorder) order; this is the
node set addressed by the `//verse` XPath selections. -/
def allNodes : XNode → List XNode
  | .el n a t cs tl => .el n a t cs tl :: allNodesList cs

def allNodesList : List XNode → List XNode
  | [] => []
  | y :: ys => allNodes y ++ allNodesList ys
end

/-- Parse events of `etree.iterparse(..., events=("start","end"))`: a start
event (name, attributes, text) at the opening tag and an end event
(name, tail) at the closing tag. -/
inductive XEvent where
  | start (name : Str) (attrs : List (Str × Str)) (text : Option Str)
  | stop (name : Str) (tail : Option Str)
deriving DecidableEq

/-- Local name of an event. -/
def XEvent.nameOf : XEvent → Str
  | .start n _ _ => n
  | .stop n _ => n

mutual
/-- Event stream of a subtree. -/
def eventsOf : XNode → List XEvent
  | .el n a t cs tl => .start n a t :: (eventsOfList cs ++ [.stop n tl])

def eventsOfList : List XNode → List XEvent
  | [] => []
  | x :: xs => eventsOf x ++ eventsOfList xs
end

-- ===== Static book tables =====

/-- USFX book id → OSIS short code (import_kjv_usfx.py lines 20-30). -/
def USFX_TO_OSIS : List (Str × Str) := [
  (lit "GEN", lit "Gen"), (lit "EXO", lit "Exod"), (lit "LEV", lit "Lev"),
  (lit "NUM", lit "Num"), (lit "DEU", lit "Deut"), (lit "JOS", lit "Josh"),
  (lit "JDG", lit "Judg"), (lit "RUT", lit "Ruth"), (lit "1SA", lit "1Sam"),
  (lit "2SA", lit "2Sam"), (lit "1KI", lit "1Kgs"), (lit "2KI", lit "2Kgs"),
  (lit "1CH", lit "1Chr"), (lit "2CH", lit "2Chr"), (lit "EZR", lit "Ezra"),
  (lit "NEH", lit "Neh"), (lit "EST", lit "Esth"), (lit "JOB", lit "Job"),
  (lit "PSA", lit "Ps"), (lit "PRO", lit "Prov"), (lit "ECC", lit "Eccl"),
  (lit "SNG", lit "Song"), (lit "ISA", lit "Isa"), (lit "JER", lit "Jer"),
  (lit "LAM", lit "Lam"), (lit "EZE", lit "Ezek"), (lit "DAN", lit "Dan"),
  (lit "HOS", lit "Hos"), (lit "JOL", lit "Joel"), (lit "AMO", lit "Amos"),
  (lit "OBA", lit "Obad"), (lit "JON", lit "Jonah"), (lit "MIC", lit "Mic"),
  (lit "NAM", lit "Nah"), (lit "HAB", lit "Hab"), (lit "ZEP", lit "Zeph"),
  (lit "HAG", lit "Hag"), (lit "ZEC", lit "Zech"), (lit "MAL", lit "Mal"),
  (lit "MAT", lit "Matt"), (lit "MRK", lit "Mark"), (lit "LUK", lit "Luke"),
  (lit "JHN", lit "John"), (lit "ACT", lit "Acts"), (lit "ROM", lit "Rom"),
  (lit "1CO", lit "1Cor"), (lit "2CO", lit "2Cor"), (lit "GAL", lit "Gal"),
  (lit "EPH", lit "Eph"), (lit "PHP", lit "Phil"), (lit "COL", lit "Col"),
  (lit "1TH", lit "1Thess"), (lit "2TH", lit "2Thess"), (lit "1TI", lit "1Tim"),
  (lit "2TI", lit "2Tim"), (lit "TIT", lit "Titus"), (lit "PHM", lit "Phlm"),
  (lit "HEB", lit "Heb"), (lit "JAS", lit "Jas"), (lit "1PE", lit "1Pet"),
  (lit "2PE", lit "2Pet"), (lit "1JN", lit "1John"), (lit "2JN", lit "2John"),
  (lit "3JN", lit "3John"), (lit "JUD", lit "Jude"), (lit "REV", lit "Rev")]

/-- OSIS short code → display book name (import_kjv_usfx.py lines 33-46). -/
def OSIS_TO_NAME : List (Str × Str) := [
  (lit "Gen", lit "Genesis"), (lit "Exod", lit "Exodus"), (lit "Lev", lit "Leviticus"),
  (lit "Num", lit "Numbers"), (lit "Deut", lit "Deuteronomy"), (lit "Josh", lit "Joshua"),
  (lit "Judg", lit "Judges"), (lit "Ruth", lit "Ruth"), (lit "1Sam", lit "1 Samuel"),
  (lit "2Sam", lit "2 Samuel"), (lit "1Kgs", lit "1 Kings"), (lit "2Kgs", lit "2 Kings"),
  (lit "1Chr", lit "1 Chronicles"), (lit "2Chr", lit "2 Chronicles"), (lit "Ezra", lit "Ezra"),
  (lit "Neh", lit "Nehemiah"), (lit "Esth", lit "Esther"), (lit "Job", lit "Job"),
  (lit "Ps", lit "Psalms"), (lit "Prov", lit "Proverbs"), (lit "Eccl", lit "Ecclesiastes"),
  (lit "Song", lit "Song of Solomon"), (lit "Isa", lit "Isaiah"), (lit "Jer", lit "Jeremiah"),
  (lit "Lam", lit "Lamentations"), (lit "Ezek", lit "Ezekiel"), (lit "Dan", lit "Daniel"),
  (lit "Hos", lit "Hosea"), (lit "Joel", lit "Joel"), (lit "Amos", lit "Amos"),
  (lit "Obad", lit "Obadiah"), (lit "Jonah", lit "Jonah"), (lit "Mic", lit "Micah"),
  (lit "Nah", lit "Nahum"), (lit "Hab", lit "Habakkuk"), (lit "Zeph", lit "Zephaniah"),
  (lit "Hag", lit "Haggai"), (lit "Zech", lit "Zechariah"), (lit "Mal", lit "Malachi"),
  (lit "Matt", lit "Matthew"), (lit "Mark", lit "Mark"), (lit "Luke", lit "Luke"),
  (lit "John", lit "John"), (lit "Acts", lit "Acts"), (lit "Rom", lit "Romans"),
  (lit "1Cor", lit "1 Corinthians"), (lit "2Cor", lit "2 Corinthians"), (lit "Gal", lit "Galatians"),
  (lit "Eph", lit "Ephesians"), (lit "Phil", lit "Philippians"), (lit "Col", lit "Colossians"),
  (lit "1Thess", lit "1 Thessalonians"), (lit "2Thess", lit "2 Thessalonians"),
  (lit "1Tim", lit "1 Timothy"), (lit "2Tim", lit "2 Timothy"), (lit "Titus", lit "Titus"),
  (lit "Phlm", lit "Philemon"), (lit "Heb", lit "Hebrews"), (lit "Jas", lit "James"),
  (lit "1Pet", lit "1 Peter"), (lit "2Pet", lit "2 Peter"), (lit "1John", lit "1 John"),
  (lit "2John", lit "2 John"), (lit "3John", lit "3 John"), (lit "Jude", lit "Jude"),
  (lit "Rev", lit "Revelation")]

/-- OSIS short code → display book name as defined in import_kjv.py lines
13-26 (the identical table also appears in etl_bibles_to_supabase.py lines
81-96 and import_kjv_osis.py lines 18-31). -/
def BOOK_NAME_MAP : List (Str × Str) := [
  (lit "Gen", lit "Genesis"), (lit "Exod", lit "Exodus"), (lit "Lev", lit "Leviticus"),
  (lit "Num", lit "Numbers"), (lit "Deut", lit "Deuteronomy"), (lit "Josh", lit "Joshua"),
  (lit "Judg", lit "Judges"), (lit "Ruth", lit "Ruth"), (lit "1Sam", lit "1 Samuel"),
  (lit "2Sam", lit "2 Samuel"), (lit "1Kgs", lit "1 Kings"), (lit "2Kgs", lit "2 Kings"),
  (lit "1Chr", lit "1 Chronicles"), (lit "2Chr", lit "2 Chronicles"), (lit "Ezra", lit "Ezra"),
  (lit "Neh", lit "Nehemiah"), (lit "Esth", lit "Esther"), (lit "Job", lit "Job"),
  (lit "Ps", lit "Psalms"), (lit "Prov", lit "Proverbs"), (lit "Eccl", lit "Ecclesiastes"),
  (lit "Song", lit "Song of Solomon"), (lit "Isa", lit "Isaiah"), (lit "Jer", lit "Jeremiah"),
  (lit "Lam", lit "Lamentations"), (lit "Ezek", lit "Ezekiel"), (lit "Dan", lit "Daniel"),
  (lit "Hos", lit "Hosea"), (lit "Joel", lit "Joel"), (lit "Amos", lit "Amos"),
  (lit "Obad", lit "Obadiah"), (lit "Jonah", lit "Jonah"), (lit "Mic", lit "Micah"),
  (lit "Nah", lit "Nahum"), (lit "Hab", lit "Habakkuk"), (lit "Zeph", lit "Zephaniah"),
  (lit "Hag", lit "Haggai"), (lit "Zech", lit "Zechariah"), (lit "Mal", lit "Malachi"),
  (lit "Matt", lit "Matthew"), (lit "Mark", lit "Mark"), (lit "Luke", lit "Luke"),
  (lit "John", lit "John"), (lit "Acts", lit "Acts"), (lit "Rom", lit "Romans"),
  (lit "1Cor", lit "1 Corinthians"), (lit "2Cor", lit "2 Corinthians"), (lit "Gal", lit "Galatians"),
  (lit "Eph", lit "Ephesians"), (lit "Phil", lit "Philippians"), (lit "Col", lit "Colossians"),
  (lit "1Thess", lit "1 Thessalonians"), (lit "2Thess", lit "2 Thessalonians"),
  (lit "1Tim", lit "1 Timothy"), (lit "2Tim", lit "2 Timothy"), (lit "Titus", lit "Titus"),
  (lit "Phlm", lit "Philemon"), (lit "Heb", lit "Hebrews"), (lit "Jas", lit "James"),
  (lit "1Pet", lit "1 Peter"), (lit "2Pet", lit "2 Peter"), (lit "1John", lit "1 John"),
  (lit "2John", lit "2 John"), (lit "3John", lit "3 John"), (lit "Jude", lit "Jude"),
  (lit "Rev", lit "Revelation")]

/-- Model of `dict.get` on the literal tables (no duplicate keys): value of
the first matching key. -/
def alookup (m : List (Str × Str)) (k : Str) : Option Str :=
  (m.find? (fun p => decide (p.1 = k))).map (·.2)

-- ===== Verse records =====

/-- A verse row as produced by `make_row` (import_kjv_usfx.py lines 151-166)
and by the DOM extractor (import_kjv.py lines 50-62).  `reading_grade` and
`text_hash` are omitted: no claim depends on them (they are a float formula
and a SHA-1 digest of `text`, both functions of the fields kept here). -/
structure Row where
  osis_id : Str
  translation : Str
  book : Option Str
  chapter : Nat
  verse : Nat
  ref_display : Str
  text : Str
  char_count : Nat
  word_count : Nat
deriving DecidableEq

/-- Python f-string rendering of a possibly-`None` value. -/
def pyFormatOpt : Option Str → Str
  | none => lit "None"
  | some t => t

/-- Model of `make_row` (import_kjv_usfx.py lines 151-166). -/
def make_row (osis_book : Str) (book_name : Option Str) (chapter verse : Nat)
    (text : Str) : Row :=
  let clean := pyStrip (collapseWs text)
  { osis_id := osis_book ++ lit "." ++ natDigits chapter ++ lit "." ++ natDigits verse
    translation := lit "KJV"
    book := book_name
    chapter := chapter
    verse := verse
    ref_display := pyFormatOpt book_name ++ lit " " ++ natDigits chapter ++ lit ":" ++ natDigits verse
    text := clean
    char_count := clean.length
    word_count := countWordRuns clean }

-- ===== Streaming extractor (import_kjv_usfx.py) =====

/-- Element names whose footnote/cross-reference content is excluded
(import_kjv_usfx.py line 58). -/
def SKIP_NAMES : List Str :=
  [lit "note", lit "xref", lit "f", lit "footnote", lit "x", lit "rf", lit "fn"]

/-- The mutable context of `parse_usfx_stream` (import_kjv_usfx.py lines
77-82). -/
structure UState where
  bookCode : Option Str
  osisBook : Option Str
  bookName : Option Str
  chapter : Option Nat
  verse : Option Nat
  buffer : List Str
deriving DecidableEq

/-- Initial parser context: everything unset. -/
def initUState : UState :=
  { bookCode := none, osisBook := none, bookName := none,
    chapter := none, verse := none, buffer := [] }

/-- Python truthiness of an optional integer. -/
def truthyNat : Option Nat → Bool
  | none => false
  | some n => decide (n ≠ 0)

/-- Model of `a or b or ""` over two optional strings (Python `or` keeps the
first truthy operand). -/
def pyOrStr (a b : Option Str) : Str :=
  match a with
  | some x =>
    if x ≠ [] then x
    else
      match b with
      | some y => if y ≠ [] then y else []
      | none => []
  | none =>
    match b with
    | some y => if y ≠ [] then y else []
    | none => []

/-- Model of the text/tail accumulation guard (import_kjv_usfx.py lines
121-123, 127-129, 133-135): append the piece if a verse and chapter are
open (truthily), the element name is not a skip name, and the piece strips
to something non-empty. -/
def appendPiece (st : UState) (nm : Str) (piece : Option Str) : UState :=
  if truthyNat st.verse = true ∧ truthyNat st.chapter = true ∧ nm ∉ SKIP_NAMES then
    match piece with
    | some t => if t ≠ [] ∧ pyStrip t ≠ [] then { st with buffer := st.buffer ++ [t] } else st
    | none => st
  else st

/-- Python `" ".join(pieces)`. -/
def joinWithSpace : List Str → Str
  | [] => []
  | [x] => x
  | x :: y :: rest => x ++ ' ' :: joinWithSpace (y :: rest)

/-- Joined buffer text:
`" ".join(s.strip() for s in buffer if s and s.strip())`. -/
def joinBuffer (b : List Str) : Str :=
  joinWithSpace
    ((b.filter (fun x => decide (x ≠ []) && decide (pyStrip x ≠ []))).map pyStrip)

/-- Flush of the currently open verse (the repeated guard at
import_kjv_usfx.py lines 102-104, 115-117, 139-141): emit a row only when
a verse is open (`is not None`), the buffer is a non-empty list, and the
book and chapter context are truthy. -/
def flushRows (st : UState) : List Row :=
  match st.verse, st.osisBook, st.chapter with
  | some v, some ob, some ch =>
    if st.buffer ≠ [] ∧ ob ≠ [] ∧ ch ≠ 0 then
      [make_row ob st.bookName ch v (joinBuffer st.buffer)]
    else []
  | _, _, _ => []

/-- One `iterparse` event of `parse_usfx_stream` (import_kjv_usfx.py lines
85-149), returning the new context and the rows yielded by this event. -/
def stepEvent (st : UState) (e : XEvent) : UState × List Row :=
  match e with
  | .start nm attrs txt =>
    if nm = lit "book" ∧ st.osisBook = none then
      let code := getAttrL attrs (lit "id")
      let osis := code.bind (alookup USFX_TO_OSIS)
      let bname : Option Str :=
        match osis with
        | some ob => if ob ≠ [] then some ((alookup OSIS_TO_NAME ob).getD ob) else none
        | none => none
      ({ st with bookCode := code, osisBook := osis, bookName := bname }, [])
    else if nm = lit "c" ∨ nm = lit "chapter" then
      let chap := pyIntDigits (pyOrStr (getAttrL attrs (lit "id")) (getAttrL attrs (lit "number")))
      if chap > 0 then
        ({ st with chapter := some chap, verse := none, buffer := [] }, flushRows st)
      else (st, [])
    else if nm = lit "v" ∨ nm = lit "verse" then
      let vnum := pyIntDigits (pyOrStr (getAttrL attrs (lit "id")) (getAttrL attrs (lit "number")))
      let p := if vnum > 0 then ({ st with verse := some vnum, buffer := [] }, flushRows st)
               else (st, [])
      (appendPiece p.1 nm txt, p.2)
    else
      (appendPiece st nm txt, [])
  | .stop nm tl =>
    let st1 := appendPiece st nm tl
    if nm = lit "book" then (initUState, flushRows st1)
    else (st1, [])

/-- Run the streaming parser over an event list, collecting yielded rows. -/
def runEvents (st : UState) : List XEvent → UState × List Row
  | [] => (st, [])
  | e :: es =>
    let p := stepEvent st e
    let q := runEvents p.1 es
    (q.1, p.2 ++ q.2)

/-- Model of `parse_usfx_stream` (import_kjv_usfx.py lines 66-149): the rows
yielded while streaming over the document's events. -/
def parse_usfx_stream (root : XNode) : List Row :=
  (runEvents initUState (eventsOf root)).2

namespace ImportKjv

/-- Row derivation of `parse_osis` (import_kjv.py lines 37-62) for a single
selected verse element. -/
def verseRow (x : XNode) : Option Row :=
  match getAttr x (lit "osisID") with
  | none => none
  | some oid =>
    match splitOnChar '.' oid with
    | code :: p1 :: p2 :: _ =>
      let chapter := pyIntDigits p1
      let verse := pyIntDigits p2
      let book := (alookup BOOK_NAME_MAP code).getD code
      let text := extract_plain_text x
      some { osis_id := oid, translation := lit "KJV", book := some book,
             chapter := chapter, verse := verse,
             ref_display := book ++ lit " " ++ natDigits chapter ++ lit ":" ++ natDigits verse,
             text := text, char_count := text.length,
             word_count := countWordRuns text }
    | _ => none

/-- Model of `parse_osis` (import_kjv.py lines 37-62): every element named
`verse` carrying an `osisID` attribute, in document order; identifiers with
fewer than 3 segments are skipped. -/
def parse_osis (root : XNode) : List Row :=
  ((allNodes root).filter
    (fun x => decide (x.nameOf = lit "verse") && (getAttr x (lit "osisID")).isSome)).filterMap
    verseRow

end ImportKjv

namespace ImportKjvOsis

/-- Row derivation of the patch-variant `parse_osis` (import_kjv_osis.py
lines 44-71): identical to import_kjv.py except that a verse whose
flattened text is empty is skipped (lines 56-58). -/
def verseRow (x : XNode) : Option Row :=
  match getAttr x (lit "osisID") with
  | none => none
  | some oid =>
    match splitOnChar '.' oid with
    | code :: p1 :: p2 :: _ =>
      let chapter := pyIntDigits p1
      let verse := pyIntDigits p2
      let book := (alookup BOOK_NAME_MAP code).getD code
      let text := extract_plain_text x
      if text = [] then none
      else
        some { osis_id := oid, translation := lit "KJV", book := some book,
               chapter := chapter, verse := verse,
               ref_display := book ++ lit " " ++ natDigits chapter ++ lit ":" ++ natDigits verse,
               text := text, char_count := text.length,
               word_count := countWordRuns text }
    | _ => none

/-- Model of the patch-variant `parse_osis` (import_kjv_osis.py lines
44-71). -/
def parse_osis (root : XNode) : List Row :=
  ((allNodes root).filter
    (fun x => decide (x.nameOf = lit "verse") && (getAttr x (lit "osisID")).isSome)).filterMap
    verseRow

end ImportKjvOsis

namespace Etl

/-- The dictionary yielded by `parse_osis` in etl_bibles_to_supabase.py
(lines 123-130). -/
structure ERow where
  osis_id : Str
  book : Str
  chapter : Int
  verse : Nat
  ref_display : Str
  text : Str
deriving DecidableEq

/-- Row derivation of `parse_osis` (etl_bibles_to_supabase.py lines
104-130): like import_kjv.py but the chapter token is first tried with
`int(...)` and only on failure falls back to digit extraction. -/
def verseRow (x : XNode) : Option ERow :=
  match getAttr x (lit "osisID") with
  | none => none
  | some oid =>
    match splitOnChar '.' oid with
    | code :: p1 :: p2 :: _ =>
      let chapter : Int :=
        match pyToInt p1 with
        | some z => z
        | none => (pyIntDigits p1 : Int)
      let verse := pyIntDigits p2
      let book := (alookup BOOK_NAME_MAP code).getD code
      some { osis_id := oid, book := book, chapter := chapter, verse := verse,
             ref_display := book ++ lit " " ++ intStr chapter ++ lit ":" ++ natDigits verse,
             text := extract_plain_text x }
    | _ => none

/-- Model of `parse_osis` (etl_bibles_to_supabase.py lines 104-130). -/
def parse_osis (root : XNode) : List ERow :=
  ((allNodes root).filter
    (fun x => decide (x.nameOf = lit "verse") && (getAttr x (lit "osisID")).isSome)).filterMap
    verseRow

end Etl

-- ===== Annotation engine (etl_bibles_to_supabase.py) =====

/-- Embedding vectors (unit-length float vectors in the source, modelled
over ℝ). -/
abbrev RVec := List ℝ

/-- Dot product, the cosine similarity of the unit vectors delivered by the
embedding contract (`cents @ v_embed` in the source). -/
noncomputable def dotR (u v : RVec) : ℝ := (List.zipWith (· * ·) u v).sum

/-- Keywords of RE_VIOLENCE (etl line 31). -/
def VIOLENCE_WORDS : List Str :=
  [lit "slay", lit "sword", lit "blood", lit "war", lit "kill",
   lit "stone", lit "smite", lit "spear", lit "battle", lit "strike"]

/-- Keywords of RE_SEXUAL (etl line 32). -/
def SEXUAL_WORDS : List Str :=
  [lit "adulter", lit "fornication", lit "prostitut", lit "lust",
   lit "naked", lit "whore", lit "harlot"]

/-- Keywords of RE_REBUKE (etl line 33). -/
def REBUKE_WORDS : List Str :=
  [lit "woe", lit "hypocrite", lit "wrath", lit "abomination",
   lit "rebuke", lit "condemn"]

/-- Keywords of RE_SLAVERY (etl line 34). -/
def SLAVERY_WORDS : List Str :=
  [lit "slave", lit "bondservant", lit "slave-master", lit "slaves",
   lit "bondservants"]

/-- Lower-case a string (the effect of `re.I` on this ASCII data). -/
def lowerStr (t : Str) : Str := t.map Char.toLower

/-- Does the needle occur as an initial segment of the haystack? -/
def matchHere : Str → Str → Bool
  | [], _ => true
  | _ :: _, [] => false
  | c :: w, d :: h => c = d && matchHere w h

/-- Python substring membership `w in t`. -/
def hasSub (w : Str) : Str → Bool
  | [] => matchHere w []
  | c :: rest => matchHere w (c :: rest) || hasSub w rest

/-- Word-boundary condition before a match: at the start of the string or
after a non-word character. -/
def boundaryBefore : Option Char → Bool
  | none => true
  | some c => !isWordChar c

/-- Word-boundary condition after a match: at the end of the string or
before a non-word character. -/
def boundaryAfter : Str → Bool
  | [] => true
  | c :: _ => !isWordChar c

/-- Scan for a whole-word occurrence of `w`; `prev` is the character just
before the current position (for the left `\b` condition). -/
def wwAux (w : Str) (prev : Option Char) (hay : Str) : Bool :=
  (boundaryBefore prev && matchHere w hay && boundaryAfter (hay.drop w.length)) ||
  (match hay with
   | [] => false
   | c :: rest => wwAux w (some c) rest)

/-- Model of `re.compile(r"\b(w1|w2|...)\b", re.I).search(t)` truthiness:
some alternative occurs somewhere in `t` as a whole word,
case-insensitively. -/
def reSearch (words : List Str) (t : Str) : Bool :=
  words.any (fun w => wwAux w none (lowerStr t))

/-- Whole-word, case-insensitive occurrence of a single word (used to state
the safety-detection property). -/
def containsWordCI (w t : Str) : Bool := wwAux (lowerStr w) none (lowerStr t)

/-- The safety dictionary of `safety_flags` (etl lines 139-146). -/
structure SafetyFlags where
  violence : Bool
  sexual : Bool
  slavery : Bool
  harsh_rebuke : Bool
  kid_safe : Bool
deriving DecidableEq

/-- Model of `safety_flags` (etl lines 139-146): keyword backstops on the
raw text; `kid_safe = not (violence or sexual)`. -/
def safety_flags (text : Str) : SafetyFlags :=
  let violence := reSearch VIOLENCE_WORDS text
  let sexual := reSearch SEXUAL_WORDS text
  let rebuke := reSearch REBUKE_WORDS text
  let slavery := reSearch SLAVERY_WORDS text
  { violence := violence, sexual := sexual, slavery := slavery,
    harsh_rebuke := rebuke, kid_safe := !(violence || sexual) }

/-- Round-half-to-even to an integer (the tie rule of Python `round`). -/
def roundHalfEven (x : ℚ) : ℤ :=
  let f := ⌊x⌋
  let r := x - (f : ℚ)
  if r < 1/2 then f
  else if (1 : ℚ)/2 < r then f + 1
  else if f % 2 = 0 then f else f + 1

/-- Exact decimal rounding to 3 places with half-even ties.  This is the
decimal stage of CPython `round(x, 3)` on a float (dtoa produces the
correctly rounded 3-place decimal of the exact binary value of `x`), and
also the spec's reading of "rounded to 3 decimals" over exact
arithmetic. -/
def pyRound3 (q : ℚ) : ℚ := (roundHalfEven (1000 * q) : ℚ) / 1000

/-- Rounding of an exact rational to the nearest IEEE-754 binary64 double
(round-half-even on a 53-bit significand).  The values arising in
`familiarity_score` all lie well inside the normal range, so overflow and
subnormals do not arise; non-positive inputs occur only at 0 here. -/
def fl64 (x : ℚ) : ℚ :=
  if 0 < x then
    (roundHalfEven (x * 2 ^ ((52 : ℤ) - Int.log 2 x)) : ℚ) * 2 ^ (Int.log 2 x - 52)
  else 0

/-- The double `base` of `familiarity_score` (etl line 229): the integer
`max(0, 140 - L)` is divided by `400.0` in binary64 (one correctly rounded
operation) and `0.5` (exact) is added in binary64 (a second correctly
rounded operation). -/
def famBase (L : ℕ) : ℚ :=
  fl64 (1/2 + fl64 (((max 0 (140 - (L : ℤ)) : ℤ) : ℚ) / 400))

/-- CPython `round(x, 3)` on a double `x`: dtoa yields the correctly
rounded 3-place decimal of the exact value of `x` and the result is the
double nearest that decimal. -/
def pyRound3F (x : ℚ) : ℚ := fl64 (pyRound3 x)

/-- Model of `familiarity_score` (etl lines 226-230), over exact binary64
values. -/
def familiarity_score (t : Str) : ℚ :=
  max 0 (min 1 (pyRound3F (famBase t.length)))

/-- The spec's words for the familiarity claim — `clamp(0.5 +
max(0, 140 - L)/400, 0, 1) rounded to 3 decimals` — read over exact
arithmetic, for comparison with the program model `familiarity_score`. -/
def familiaritySpec (t : Str) : ℚ :=
  pyRound3 (min 1 (max 0
    ((1 : ℚ)/2 + ((max 0 (140 - (t.length : ℤ)) : ℤ) : ℚ) / 400)))

/-- Model of `softmax` (etl lines 74-78): shift by the maximum,
exponentiate, normalise.  `np.max` is an error on an empty array; the model
shifts by 0 there, and every use site passes a non-empty vector. -/
noncomputable def softmax (x : List ℝ) : List ℝ :=
  let m : ℝ := match x with
    | [] => 0
    | h :: t => t.foldl max h
  let e := x.map (fun v => Real.exp (v - m))
  e.map (fun v => v / e.sum)

/-- The four daypart label descriptions (etl lines 151-156). -/
def DAYPART_LABEL_TEXTS : List Str := [
  lit "morning: dawn, new mercies, light, beginning",
  lit "day: labor, walking, sunshine, activity",
  lit "evening: rest from labor, sunset, reflection",
  lit "night: darkness, fear, protection, rest, peace in the night"]

/-- The five tone label descriptions (etl lines 164-170). -/
def TONE_LABEL_TEXTS : List Str := [
  lit "calming: gentle reassurance, peace, rest, comfort",
  lit "encouraging: hope, promise, joy, uplift",
  lit "corrective: rebuke, warning, command to change",
  lit "celebratory: praise, thanksgiving, rejoicing",
  lit "contemplative: wisdom, meditate, ponder, understanding"]

/-- The nine mood label descriptions (etl lines 200-210). -/
def MOOD_LABEL_TEXTS : List Str := [
  lit "anxious: worry, fear, burdened, need reassurance",
  lit "tired: weary, exhausted, need strength and rest",
  lit "grateful: thankful, praise, appreciation",
  lit "hopeful: expectation of good, trust in future",
  lit "sad: sorrowful, downcast, lament",
  lit "lonely: alone, abandoned, need presence",
  lit "guilty: ashamed, confession, repentance",
  lit "angry: wrath, frustration, need gentleness",
  lit "bereaved: grief, loss, mourning"]

/-- The 15 theme labels, in the insertion order of THEME_DESCRIPTIONS (etl
lines 9-25), which is the order of the centroid dictionary keys. -/
def THEME_NAMES : List Str := [
  lit "comfort", lit "hope", lit "trust", lit "wisdom", lit "forgiveness",
  lit "love", lit "joy", lit "strength", lit "guidance", lit "peace",
  lit "repentance", lit "healing", lit "generosity", lit "patience",
  lit "perseverance"]

/-- Model of `daypart_probs_from_semantics` (etl lines 148-159); the label
embedding function (`embed_texts` with a live model) enters as the
parameter `embed`. -/
noncomputable def daypart_probs_from_semantics
    (embed : List Str → List RVec) (v_embed : Option RVec) : List ℝ :=
  match v_embed with
  | none => [0.3, 0.4, 0.2, 0.1]
  | some v => softmax ((embed DAYPART_LABEL_TEXTS).map (fun c => dotR c v))

/-- Model of `tone_probs_from_semantics` (etl lines 161-173). -/
noncomputable def tone_probs_from_semantics
    (embed : List Str → List RVec) (v_embed : Option RVec) : List ℝ :=
  match v_embed with
  | none => [0.4, 0.3, 0.1, 0.1, 0.1]
  | some v => softmax ((embed TONE_LABEL_TEXTS).map (fun c => dotR c v))

/-- Model of `np.argsort(sims)[::-1]`: the indices of `sims` sorted by
descending value.  Ties are resolved deterministically by insertion sort
(NumPy's default quicksort leaves tie order unspecified). -/
noncomputable def argsortDesc (sims : List ℝ) : List ℕ :=
  (List.range sims.length).insertionSort (fun i j => sims.getD j 0 ≤ sims.getD i 0)

/-- Model of `theme_tags_from_semantics` (etl lines 175-196).  The centroid
matrix `M` (the embeddings of the 15 theme descriptions, row-aligned with
`THEME_NAMES`) enters as the parameter `cents`. -/
noncomputable def theme_tags_from_semantics
    (cents : List RVec) (v_embed : Option RVec) (text : Str) : List Str :=
  match v_embed with
  | none =>
    let t := lowerStr text
    let picks0 : List Str :=
      if [lit "peace", lit "rest", lit "refuge", lit "care", lit "burden",
          lit "anxiety"].any (fun w => hasSub w t)
      then [lit "comfort"] else []
    let picks1 := picks0 ++
      (if hasSub (lit "hope") t || hasSub (lit "promise") t then [lit "hope"] else [])
    let picks2 := picks1 ++
      (if hasSub (lit "trust") t || hasSub (lit "refuge") t || hasSub (lit "shield") t
       then [lit "trust"] else [])
    let picks3 := picks2 ++
      (if hasSub (lit "wisdom") t || hasSub (lit "understanding") t
       then [lit "wisdom"] else [])
    let picks := if picks3 = [] then [lit "comfort"] else picks3
    picks.take 3
  | some v =>
    let sims := cents.map (fun c => dotR c v)
    let order := argsortDesc sims
    let out := ((order.take 3).filter
        (fun idx => decide (¬ sims.getD idx 0 < 0.25))).map
      (fun idx => THEME_NAMES.getD idx [])
    if out = [] then [lit "comfort"] else out

/-- Model of `mood_tags_from_semantics` (etl lines 198-224); the mood
centroid matrix enters as the parameter `moodCents`. -/
noncomputable def mood_tags_from_semantics
    (moodCents : List RVec) (v_embed : Option RVec) (text : Str) : List Str :=
  let names := MOOD_LABEL_TEXTS.map (fun l => (splitOnChar ':' l).headD [])
  match v_embed with
  | none =>
    let t := lowerStr text
    let picks0 : List Str :=
      if [lit "fear", lit "anxiety", lit "care", lit "trouble"].any (fun w => hasSub w t)
      then [lit "anxious"] else []
    let picks1 := picks0 ++
      (if hasSub (lit "weary") t || hasSub (lit "rest") t then [lit "tired"] else [])
    let picks2 := picks1 ++
      (if hasSub (lit "praise") t || hasSub (lit "thanks") t then [lit "grateful"] else [])
    let picks3 := picks2 ++
      (if hasSub (lit "hope") t || hasSub (lit "joy") t then [lit "hopeful"] else [])
    (if picks3 = [] then [lit "hopeful"] else picks3).take 2
  | some v =>
    let sims := moodCents.map (fun c => dotR c v)
    let order := argsortDesc sims
    (order.take 2).map (fun i => names.getD i [])

/-- The annotation record built per verse in `process_annotations` (etl
lines 337-346). -/
structure AnnRecord where
  themes : List Str
  moods : List Str
  daypart_probs : List ℝ
  tone_probs : List ℝ
  safety : SafetyFlags
  familiarity : ℚ

/-- Model of the `ann` dictionary of `process_annotations` (etl lines
337-346) for one verse text, parameterised by the embedding-model outputs:
the theme/mood centroid matrices, the label-embedding function, and the
verse fingerprint `v_embed` (which is `none` exactly on the no-model
fallback path). -/
noncomputable def processVerseAnn (themeCents moodCents : List RVec)
    (embed : List Str → List RVec) (v_embed : Option RVec) (text : Str) : AnnRecord :=
  { themes := theme_tags_from_semantics themeCents v_embed text
    moods := mood_tags_from_semantics moodCents v_embed text
    daypart_probs := daypart_probs_from_semantics embed v_embed
    tone_probs := tone_probs_from_semantics embed v_embed
    safety := safety_flags text
    familiarity := familiarity_score text }

/-- EMBED_DIM (etl line 38). -/
def EMBED_DIM : ℕ := 384

/-- Euclidean norm of a vector (np.linalg.norm of a row). -/
noncomputable def l2norm (v : RVec) : ℝ := Real.sqrt ((v.map (fun x => x ^ 2)).sum)

/-- Row normalisation `vecs /= norm(vecs) + 1e-9` (etl line 56). -/
noncomputable def normalizeRow (v : RVec) : RVec :=
  v.map (fun x => x / (l2norm v + 1e-9))

/-- Model of the fallback branch of `embed_texts` (etl lines 50-57), taken
when no sentence-transformer model is available: a generator seeded with
the constant 42 fills a len(texts)×384 matrix which is then
row-normalised.  The fixed pseudo-random stream of
`np.random.default_rng(42).random` enters as the parameter `stream`
(`stream i j` is the draw for row `i`, column `j`); the input texts are
used only through `len(texts)`. -/
noncomputable def embed_texts_fallback (stream : ℕ → ℕ → ℝ) (texts : List Str) : List RVec :=
  (List.range texts.length).map (fun i =>
    normalizeRow ((List.range EMBED_DIM).map (fun j => stream i j)))

-- ===== Abstract verse content and the two dialect encodings (claim C2) =====

/-- Abstract verse: a verse number and its canonical text. -/
structure AbsVerse where
  num : Nat
  text : Str

/-- Abstract chapter: a chapter number and its verses in order. -/
structure AbsChapter where
  num : Nat
  verses : List AbsVerse

/-- Abstract book: a USFX book id and its chapters in order. -/
structure AbsBook where
  usfxCode : Str
  chapters : List AbsChapter

/-- Canonical verse content: non-empty, already whitespace-collapsed and
trimmed (spec glossary: whitespace-collapsed, trimmed, markup-free). -/
abbrev CanonicalText (t : Str) : Prop :=
  t ≠ [] ∧ collapseWs t = t ∧ pyStrip t = t

/-- Well-formed verse: positive number and canonical content. -/
abbrev WFVerse (v : AbsVerse) : Prop := 0 < v.num ∧ CanonicalText v.text

/-- Well-formed chapter: positive number, well-formed verses. -/
abbrev WFChapter (c : AbsChapter) : Prop := 0 < c.num ∧ ∀ v ∈ c.verses, WFVerse v

/-- Well-formed book: a USFX id present in the book-code table and
well-formed chapters. -/
abbrev WFBook (b : AbsBook) : Prop :=
  (alookup USFX_TO_OSIS b.usfxCode).isSome ∧ ∀ c ∈ b.chapters, WFChapter c

/-- Well-formed abstract content. -/
abbrev WFBible (bb : List AbsBook) : Prop := ∀ b ∈ bb, WFBook b

/-- OSIS code of an abstract book via the mapping table. -/
def osisOf (b : AbsBook) : Str := (alookup USFX_TO_OSIS b.usfxCode).getD []

/-- DOM-dialect encoding of one verse: a self-contained `verse` element
with a composite `osisID` attribute and the text as direct content. -/
def encodeVerseD (osis : Str) (ch : Nat) (v : AbsVerse) : XNode :=
  .el (lit "verse")
    [(lit "osisID", osis ++ lit "." ++ natDigits ch ++ lit "." ++ natDigits v.num)]
    (some v.text) [] none

/-- DOM-dialect encoding of abstract content: an `osis` root whose children
are the verse elements in canonical order. -/
def encodeDOM (bible : List AbsBook) : XNode :=
  .el (lit "osis") [] none
    (bible.flatMap (fun b =>
      b.chapters.flatMap (fun c => c.verses.map (encodeVerseD (osisOf b) c.num)))) none

/-- Milestone-dialect encoding of one verse: a self-closing `v` marker whose
tail is the verse text. -/
def encodeVerseU (v : AbsVerse) : XNode :=
  .el (lit "v") [(lit "id", natDigits v.num)] none [] (some v.text)

/-- Milestone-dialect encoding of one chapter: a self-closing `c` marker
followed by the verse markers with their sibling text. -/
def encodeChapterU (c : AbsChapter) : List XNode :=
  .el (lit "c") [(lit "id", natDigits c.num)] none [] none :: c.verses.map encodeVerseU

/-- Milestone-dialect encoding of one book. -/
def encodeBookU (b : AbsBook) : XNode :=
  .el (lit "book") [(lit "id", b.usfxCode)] none (b.chapters.flatMap encodeChapterU) none

/-- Milestone-dialect encoding of abstract content: a `usfx` root containing
the book elements. -/
def encodeUSFX (bible : List AbsBook) : XNode :=
  .el (lit "usfx") [] none (bible.map encodeBookU) none

-- ===== Concrete inputs used by the boundary tests and counterexamples =====

/-- Milestone fragment with an empty verse milestone (verse 1) immediately
followed by a non-empty one (verse 2). -/
def usfxBoundaryExample : XNode :=
  .el (lit "book") [(lit "id", lit "GEN")] none
    [ .el (lit "c") [(lit "id", lit "1")] none [] none,
      .el (lit "v") [(lit "id", lit "1")] none [] none,
      .el (lit "v") [(lit "id", lit "2")] none []
        (some (lit "In the beginning")) ] none

/-- Milestone fragment in which an open verse contains a `note` subtree: the
verse text "A " is the tail of the verse marker, the note holds direct text
"N" and a child element `w` with text "LEAK", and the text " B" following
the note is the note's tail. -/
def usfxNoteExample : XNode :=
  .el (lit "book") [(lit "id", lit "GEN")] none
    [ .el (lit "c") [(lit "id", lit "1")] none [] none,
      .el (lit "v") [(lit "id", lit "1")] none [] (some (lit "A ")),
      .el (lit "note") [] (some (lit "N"))
        [ .el (lit "w") [] (some (lit "LEAK")) [] none ] (some (lit " B")) ] none

/-- Milestone fragment whose book id `XYZ` is not in USFX_TO_OSIS, with a
non-empty verse inside. -/
def usfxUnknownBookExample : XNode :=
  .el (lit "book") [(lit "id", lit "XYZ")] none
    [ .el (lit "c") [(lit "id", lit "1")] none [] none,
      .el (lit "v") [(lit "id", lit "1")] none [] (some (lit "Some text.")) ] none

/-- DOM verse element with a valid 3-segment identifier and
whitespace-only content (flattens to the empty canonical text). -/
def domEmptyVerseNode : XNode :=
  .el (lit "verse") [(lit "osisID", lit "Gen.1.1")] (some (lit "   ")) [] none

/-- DOM document containing only the empty verse element. -/
def domEmptyExample : XNode :=
  .el (lit "osis") [] none [domEmptyVerseNode] none

/-- The row the streaming extractor is expected to emit on the boundary
example. -/
def boundaryRow : Row :=
  make_row (lit "Gen") (some (lit "Genesis")) 1 2 (lit "In the beginning")

-- ===== Derived descriptions used by the cross-dialect equivalence proof =====

/-- The verse row both extractors should produce for verse `v` of chapter
`cn` of abstract book `b`. -/
def expectedRow (b : AbsBook) (cn : Nat) (v : AbsVerse) : Row :=
  { osis_id := osisOf b ++ lit "." ++ natDigits cn ++ lit "." ++ natDigits v.num
    translation := lit "KJV"
    book := some ((alookup OSIS_TO_NAME (osisOf b)).getD (osisOf b))
    chapter := cn
    verse := v.num
    ref_display := (alookup OSIS_TO_NAME (osisOf b)).getD (osisOf b) ++ lit " " ++
      natDigits cn ++ lit ":" ++ natDigits v.num
    text := v.text
    char_count := v.text.length
    word_count := countWordRuns v.text }

/-- All rows of an abstract book in canonical order. -/
def bookRows (b : AbsBook) : List Row :=
  b.chapters.flatMap (fun c => c.verses.map (expectedRow b c.num))

/-- Parser context in the middle of an abstract book: book fields resolved,
given chapter/verse/buffer. -/
def midState (b : AbsBook) (ch : Option Nat) (vr : Option Nat) (buf : List Str) : UState :=
  { bookCode := some b.usfxCode
    osisBook := some (osisOf b)
    bookName := some ((alookup OSIS_TO_NAME (osisOf b)).getD (osisOf b))
    chapter := ch
    verse := vr
    buffer := buf }

/-- Verse-number component of a pending (open, unflushed) verse. -/
def pendVerse : Option AbsVerse → Option Nat
  | none => none
  | some v => some v.num

/-- Buffer contents corresponding to a pending verse. -/
def pendBuf : Option AbsVerse → List Str
  | none => []
  | some v => [v.text]

/-- Rows produced by flushing a pending verse under chapter `cn`. -/
def flushPend (b : AbsBook) (cn : Nat) : Option AbsVerse → List Row
  | none => []
  | some v => [expectedRow b cn v]

/-- Rows produced by flushing a pending verse given an optional current
chapter (no chapter means nothing can flush). -/
def pendRows (b : AbsBook) : Option Nat → Option AbsVerse → List Row
  | some cn, some v => [expectedRow b cn v]
  | _, _ => []

/-- The verse left pending after processing `vs` starting from pending `p`. -/
def lastPend : Option AbsVerse → List AbsVerse → Option AbsVerse
  | p, [] => p
  | _, v :: vs => lastPend (some v) vs

/-- Rows flushed while processing the verse markers `vs` of chapter `cn`
starting from pending `p` (each marker flushes the previous pending
verse; the final one stays pending). -/
def flushSeq (b : AbsBook) (cn : Nat) : Option AbsVerse → List AbsVerse → List Row
  | _, [] => []
  | p, v :: vs => flushPend b cn p ++ flushSeq b cn (some v) vs

/-- Cosine-similarity vector of a verse fingerprint against the theme
centroids (`M @ v_embed` in the source). -/
noncomputable def themeSims (cents : List RVec) (v : RVec) : List ℝ :=
  cents.map (fun c => dotR c v)

/-- The indices kept by the theme classifier: the top 3 of the descending
argsort, filtered by the 0.25 similarity floor. -/
noncomputable def themeTop3 (cents : List RVec) (v : RVec) : List ℕ :=
  ((argsortDesc (themeSims cents v)).take 3).filter
    (fun idx => decide (¬ (themeSims cents v).getD idx 0 < 0.25))

-- ===== Whitespace and buffer lemmas =====

theorem pyStrip_eq_nil_of_all {t : Str} (h : ∀ c ∈ t, isPySpace c = true) :
    pyStrip t = [] := by
  unfold pyStrip
  rw [List.dropWhile_eq_nil_iff.mpr h]
  rfl

theorem mem_dropWhile_of {p : Char → Bool} {c : Char} (hc : p c = false) :
    ∀ {l : Str}, c ∈ l → c ∈ l.dropWhile p := by
  intro l
  induction l with
  | nil => intro h; exact absurd h (List.not_mem_nil c)
  | cons d rest ih =>
    intro h
    by_cases hd : p d = true
    · rw [List.dropWhile_cons_of_pos hd]
      rcases List.mem_cons.mp h with rfl | hm
      · rw [hd] at hc; exact absurd hc (by simp)
      · exact ih hm
    · rw [List.dropWhile_cons_of_neg hd]
      exact h

theorem mem_pyStrip_of {c : Char} (hc : isPySpace c = false) {t : Str} (h : c ∈ t) :
    c ∈ pyStrip t := by
  unfold pyStrip
  exact List.mem_reverse.mpr
    (mem_dropWhile_of hc (List.mem_reverse.mpr (mem_dropWhile_of hc h)))

theorem mem_collapseAux {c : Char} (hc : isPySpace c = false) :
    ∀ (b : Bool) (t : Str), c ∈ t → c ∈ collapseAux b t := by
  intro b t
  induction t generalizing b with
  | nil => intro h; exact absurd h (List.not_mem_nil c)
  | cons d rest ih =>
    intro h
    unfold collapseAux
    by_cases hd : isPySpace d = true
    · rw [if_pos hd]
      have hm : c ∈ rest := by
        rcases List.mem_cons.mp h with rfl | hm
        · rw [hd] at hc; exact absurd hc (by simp)
        · exact hm
      by_cases hb : b
      · rw [if_pos hb]; exact ih true hm
      · rw [if_neg hb]; exact List.mem_cons_of_mem _ (ih true hm)
    · rw [if_neg hd]
      rcases List.mem_cons.mp h with rfl | hm
      · exact List.mem_cons_self c _
      · exact List.mem_cons_of_mem _ (ih false hm)

theorem mem_joinWithSpace_head {c : Char} {p : Str} (h : c ∈ p) :
    ∀ ps : List Str, c ∈ joinWithSpace (p :: ps) := by
  intro ps
  cases ps with
  | nil => exact h
  | cons q rest => exact List.mem_append_left _ h

theorem exists_notSpace_of_pyStrip_ne_nil {t : Str} (h : pyStrip t ≠ []) :
    ∃ c ∈ t, isPySpace c = false := by
  by_contra hall
  push_neg at hall
  exact h (pyStrip_eq_nil_of_all (by
    intro c hc
    have := hall c hc
    simpa using this))

theorem joinBuffer_strip_ne_nil {b : List Str} (hb : b ≠ [])
    (h : ∀ x ∈ b, pyStrip x ≠ []) :
    pyStrip (collapseWs (joinBuffer b)) ≠ [] := by
  have hfil : b.filter (fun x => decide (x ≠ []) && decide (pyStrip x ≠ [])) = b := by
    apply List.filter_eq_self.mpr
    intro x hx
    have hxs := h x hx
    have hxn : x ≠ [] := by
      intro hnil
      exact hxs (by rw [hnil]; rfl)
    simp [hxn, hxs]
  rcases List.exists_cons_of_ne_nil hb with ⟨e, rest, rfl⟩
  rcases exists_notSpace_of_pyStrip_ne_nil (h e (List.mem_cons_self e rest)) with ⟨c, hce, hcw⟩
  have h1 : c ∈ pyStrip e := mem_pyStrip_of hcw hce
  have h2 : c ∈ joinBuffer (e :: rest) := by
    unfold joinBuffer
    rw [hfil, List.map_cons]
    exact mem_joinWithSpace_head h1 _
  have h3 : c ∈ collapseWs (joinBuffer (e :: rest)) := mem_collapseAux hcw false _ h2
  exact List.ne_nil_of_mem (mem_pyStrip_of hcw h3)

theorem flushRows_text_ne_nil {st : UState}
    (h : ∀ x ∈ st.buffer, pyStrip x ≠ []) :
    ∀ r ∈ flushRows st, r.text ≠ [] := by
  unfold flushRows
  split
  · split
    · rename_i hcond
      intro r hr
      rw [List.mem_singleton] at hr
      subst hr
      exact joinBuffer_strip_ne_nil hcond.1 h
    · intro r hr; exact absurd hr (List.not_mem_nil r)
  · intro r hr; exact absurd hr (List.not_mem_nil r)

theorem appendPiece_skip {nm : Str} (h : nm ∈ SKIP_NAMES) (st : UState) (p : Option Str) :
    appendPiece st nm p = st := by
  unfold appendPiece
  rw [if_neg (fun hc => hc.2.2 h)]

theorem appendPiece_none (st : UState) (nm : Str) : appendPiece st nm none = st := by
  unfold appendPiece
  split <;> rfl

theorem appendPiece_osisBook (st : UState) (nm : Str) (p : Option Str) :
    (appendPiece st nm p).osisBook = st.osisBook := by
  unfold appendPiece
  split
  · split
    · split <;> rfl
    · rfl
  · rfl

theorem bufInv_appendPiece {st : UState} (h : ∀ x ∈ st.buffer, pyStrip x ≠ [])
    (nm : Str) (p : Option Str) :
    ∀ x ∈ (appendPiece st nm p).buffer, pyStrip x ≠ [] := by
  intro x hx
  unfold appendPiece at hx
  split at hx
  · split at hx
    · split at hx
      · rename_i ht
        rcases List.mem_append.mp hx with hx | hx
        · exact h x hx
        · rw [List.mem_singleton] at hx
          subst hx
          exact ht.2
      · exact h x hx
    · exact h x hx
  · exact h x hx

theorem stepEvent_buffer_inv {st : UState} (h : ∀ x ∈ st.buffer, pyStrip x ≠ [])
    (e : XEvent) :
    ∀ x ∈ (stepEvent st e).1.buffer, pyStrip x ≠ [] := by
  intro x hx
  cases e with
  | start nm attrs txt =>
    simp only [stepEvent] at hx
    split at hx
    · exact h x hx
    · split at hx
      · split at hx
        · simp at hx
        · exact h x hx
      · split at hx
        · split at hx
          · exact @bufInv_appendPiece
              { st with
                verse := some (pyIntDigits (pyOrStr (getAttrL attrs (lit "id"))
                  (getAttrL attrs (lit "number")))), buffer := [] } (by simp) nm txt x hx
          · exact bufInv_appendPiece h nm txt x hx
        · exact bufInv_appendPiece h nm txt x hx
  | stop nm tl =>
    simp only [stepEvent] at hx
    split at hx
    · simp [initUState] at hx
    · exact bufInv_appendPiece h nm tl x hx

theorem stepEvent_rows_text {st : UState} (h : ∀ x ∈ st.buffer, pyStrip x ≠ [])
    (e : XEvent) :
    ∀ r ∈ (stepEvent st e).2, r.text ≠ [] := by
  intro r hr
  cases e with
  | start nm attrs txt =>
    simp only [stepEvent] at hr
    split at hr
    · simp at hr
    · split at hr
      · split at hr
        · exact flushRows_text_ne_nil h r hr
        · simp at hr
      · split at hr
        · split at hr
          · exact flushRows_text_ne_nil h r hr
          · simp at hr
        · simp at hr
  | stop nm tl =>
    simp only [stepEvent] at hr
    split at hr
    · exact flushRows_text_ne_nil (bufInv_appendPiece h nm tl) r hr
    · simp at hr

theorem runEvents_text_ne_nil {es : List XEvent} :
    ∀ {st : UState}, (∀ x ∈ st.buffer, pyStrip x ≠ []) →
      ∀ r ∈ (runEvents st es).2, r.text ≠ [] := by
  induction es with
  | nil =>
    intro st _ r hr
    simp [runEvents] at hr
  | cons e es ih =>
    intro st h r hr
    rw [runEvents] at hr
    rcases List.mem_append.mp (by simpa using hr) with hr | hr
    · exact stepEvent_rows_text h e r hr
    · exact ih (stepEvent_buffer_inv h e) r hr

theorem flushRows_of_osisBook_none {st : UState} (h : st.osisBook = none) :
    flushRows st = [] := by
  unfold flushRows
  rw [h]
  cases st.verse <;> cases st.chapter <;> rfl

theorem stepEvent_unknown {st : UState} (hob : st.osisBook = none) {e : XEvent}
    (he : ∀ attrs txt, e = XEvent.start (lit "book") attrs txt →
      (getAttrL attrs (lit "id")).bind (alookup USFX_TO_OSIS) = none) :
    (stepEvent st e).2 = [] ∧ (stepEvent st e).1.osisBook = none := by
  cases e with
  | start nm attrs txt =>
    simp only [stepEvent]
    split
    · rename_i hcond
      exact ⟨rfl, he attrs txt (by rw [hcond.1])⟩
    · split
      · split
        · exact ⟨flushRows_of_osisBook_none hob, hob⟩
        · exact ⟨rfl, hob⟩
      · split
        · split
          · exact ⟨flushRows_of_osisBook_none hob, by rw [appendPiece_osisBook]; exact hob⟩
          · exact ⟨rfl, by rw [appendPiece_osisBook]; exact hob⟩
        · exact ⟨rfl, by rw [appendPiece_osisBook]; exact hob⟩
  | stop nm tl =>
    simp only [stepEvent]
    split
    · exact ⟨flushRows_of_osisBook_none (by rw [appendPiece_osisBook]; exact hob), rfl⟩
    · exact ⟨rfl, by rw [appendPiece_osisBook]; exact hob⟩

theorem runEvents_unknown {es : List XEvent}
    (hes : ∀ e ∈ es, ∀ attrs txt, e = XEvent.start (lit "book") attrs txt →
      (getAttrL attrs (lit "id")).bind (alookup USFX_TO_OSIS) = none) :
    ∀ {st : UState}, st.osisBook = none →
      (runEvents st es).2 = [] ∧ (runEvents st es).1.osisBook = none := by
  induction es with
  | nil =>
    intro st h
    exact ⟨rfl, h⟩
  | cons e es ih =>
    intro st h
    have hstep := stepEvent_unknown h (hes e (List.mem_cons_self e es))
    have hrest := ih (fun e' he' => hes e' (List.mem_cons_of_mem e he')) hstep.2
    rw [runEvents]
    refine ⟨?_, hrest.2⟩
    rw [hstep.1, hrest.1]
    rfl

-- ===== Claim theorems (C1, C3, C4, C7, C9) =====

/-- C1 (counterexample): on a concrete milestone input in which an open
verse contains a `note` element with a child element `w` holding the text
"LEAK" and whose tail is " B", the extracted verse text is "A LEAK": the
text inside the note subtree leaks into the verse (via the non-skip child
`w`) and the verse text " B" following the subtree is dropped —
contradicting both halves of the claim. -/
theorem c1_counterexample :
    (parse_usfx_stream usfxNoteExample).map Row.text = [lit "A LEAK"] := by decide

/-- C1 (amended): an iterparse event whose element name is in the skip set
never changes the verse buffer and never emits a record — the skip-named
element's own inline text and tail are excluded.  (Descendants of a
skip-named element that are not themselves skip-named still contribute
their text, and the tail following a skip-named subtree is dropped, as the
counterexample shows.) -/
theorem c1_skip_named_events_inert (st : UState) (e : XEvent)
    (h : e.nameOf ∈ SKIP_NAMES) : stepEvent st e = (st, []) := by
  have hb : e.nameOf ≠ lit "book" := fun he => by rw [he] at h; exact absurd h (by decide)
  have hc : e.nameOf ≠ lit "c" := fun he => by rw [he] at h; exact absurd h (by decide)
  have hch : e.nameOf ≠ lit "chapter" := fun he => by rw [he] at h; exact absurd h (by decide)
  have hv : e.nameOf ≠ lit "v" := fun he => by rw [he] at h; exact absurd h (by decide)
  have hvs : e.nameOf ≠ lit "verse" := fun he => by rw [he] at h; exact absurd h (by decide)
  cases e with
  | start nm attrs txt =>
    simp only [XEvent.nameOf] at h hb hc hch hv hvs
    simp only [stepEvent]
    rw [if_neg (fun hh => hb hh.1), if_neg (fun hh => hh.elim hc hch),
        if_neg (fun hh => hh.elim hv hvs), appendPiece_skip h]
  | stop nm tl =>
    simp only [XEvent.nameOf] at h hb
    simp only [stepEvent]
    rw [appendPiece_skip h, if_neg hb]

/-- C1 (witness for the amended theorem): a start event of a `note` element
leaves the initial state untouched and emits nothing. -/
theorem c1_witness :
    stepEvent initUState (XEvent.start (lit "note") [] (some (lit "footnote text"))) =
      (initUState, []) :=
  c1_skip_named_events_inert initUState _ (by decide)

/-- C3: the streaming extractor only emits records whose canonical text is
non-empty (the flush guard requires a non-empty buffer, and every buffered
piece strips to something non-empty, so the joined and trimmed text of an
emitted record is never empty); and on the concrete boundary fragment with
an empty verse-1 milestone immediately followed by a non-empty verse-2
milestone, exactly one record is emitted, carrying verse number 2 and the
later marker's text. -/
theorem c3_streaming_flush_rule :
    (∀ (root : XNode) (r : Row), r ∈ parse_usfx_stream root → r.text ≠ []) ∧
    parse_usfx_stream usfxBoundaryExample = [boundaryRow] ∧
    boundaryRow.verse = 2 ∧ boundaryRow.text = lit "In the beginning" := by
  refine ⟨fun root r hr => runEvents_text_ne_nil (by simp [initUState]) r hr, ?_, ?_, ?_⟩
  · decide
  · decide
  · decide

/-- C3 (witness): the record emitted on the boundary example has non-empty
text. -/
theorem c3_witness : boundaryRow.text ≠ [] :=
  c3_streaming_flush_rule.1 usfxBoundaryExample boundaryRow (by decide)

/-- C4 (counterexample): a milestone input containing a verse with text
whose book code `XYZ` is missing from the book-code table produces no
record at all — the streaming extractor does not pass the unknown code
through as a display name. -/
theorem c4_counterexample : parse_usfx_stream usfxUnknownBookExample = [] := by decide

/-- C4 (amended): all three DOM extractors (import_kjv.py, the patch
variant import_kjv_osis.py, and the ETL parse_osis) pass an unknown book
code through verbatim as the display book name without failing —
import_kjv.py and the ETL unconditionally, and import_kjv_osis.py
whenever it emits a record at all, i.e. whenever the verse's flattened
text is non-empty (its extra empty-text skip is independent of the book
lookup).  The streaming extractor also does not fail, but a book whose
USFX code is not in the table yields no records at all (its flush guard
requires a resolved OSIS book). -/
theorem c4_unknown_book_passthrough (x : XNode) (oid code p1 p2 : Str) (rest : List Str)
    (hoid : getAttr x (lit "osisID") = some oid)
    (hsplit : splitOnChar '.' oid = code :: p1 :: p2 :: rest)
    (hcode : alookup BOOK_NAME_MAP code = none) :
    (∃ r : Row, ImportKjv.verseRow x = some r ∧ r.book = some code) ∧
    (extract_plain_text x ≠ [] →
      ∃ r : Row, ImportKjvOsis.verseRow x = some r ∧ r.book = some code) ∧
    (∃ r : Etl.ERow, Etl.verseRow x = some r ∧ r.book = code) ∧
    (∀ es : List XEvent,
      (∀ e ∈ es, ∀ attrs txt, e = XEvent.start (lit "book") attrs txt →
        (getAttrL attrs (lit "id")).bind (alookup USFX_TO_OSIS) = none) →
      (runEvents initUState es).2 = []) := by
  refine ⟨?_, ?_, ?_, ?_⟩
  · unfold ImportKjv.verseRow
    simp only [hoid, hsplit]
    refine ⟨_, rfl, ?_⟩
    show some ((alookup BOOK_NAME_MAP code).getD code) = some code
    rw [hcode]
    rfl
  · intro htext
    unfold ImportKjvOsis.verseRow
    simp only [hoid, hsplit]
    rw [if_neg htext]
    refine ⟨_, rfl, ?_⟩
    show some ((alookup BOOK_NAME_MAP code).getD code) = some code
    rw [hcode]
    rfl
  · unfold Etl.verseRow
    simp only [hoid, hsplit]
    refine ⟨_, rfl, ?_⟩
    show (alookup BOOK_NAME_MAP code).getD code = code
    rw [hcode]
    rfl
  · intro es hes
    exact (runEvents_unknown hes rfl).1

/-- C4 (witness for the amended theorem): a DOM verse element with the
unknown book code `Zzz` and non-empty text yields, in both import_kjv.py
and import_kjv_osis.py, a record whose display book name is `Zzz`
itself. -/
theorem c4_witness :
    (ImportKjv.verseRow (XNode.el (lit "verse") [(lit "osisID", lit "Zzz.3.4")]
      (some (lit "Unknown book")) [] none)).map Row.book = some (some (lit "Zzz")) ∧
    (ImportKjvOsis.verseRow (XNode.el (lit "verse") [(lit "osisID", lit "Zzz.3.4")]
      (some (lit "Unknown book")) [] none)).map Row.book = some (some (lit "Zzz")) := by
  have h :=
    c4_unknown_book_passthrough
      (XNode.el (lit "verse") [(lit "osisID", lit "Zzz.3.4")]
        (some (lit "Unknown book")) [] none)
      (lit "Zzz.3.4") (lit "Zzz") (lit "3") (lit "4") []
      (by decide) (by decide) (by decide)
  obtain ⟨r1, hr1, hb1⟩ := h.1
  obtain ⟨r2, hr2, hb2⟩ := h.2.1 (by decide)
  constructor
  · rw [hr1]
    simp [hb1]
  · rw [hr2]
    simp [hb2]

/-- C7: the safety flags are a function of the raw text alone — the
annotation record's safety field equals `safety_flags text` for every
fingerprint argument, including the `none` fallback; `kid_safe` is the
negation of (violence or sexual); and any text containing the whole word
"sword" (case-insensitively) is flagged violent and hence not kid-safe. -/
theorem c7_safety_flags (t : Str) :
    ((safety_flags t).kid_safe = !((safety_flags t).violence || (safety_flags t).sexual)) ∧
    (∀ (themeCents moodCents : List RVec) (embed : List Str → List RVec)
        (v_embed : Option RVec),
      (processVerseAnn themeCents moodCents embed v_embed t).safety = safety_flags t) ∧
    (containsWordCI (lit "sword") t = true →
      (safety_flags t).violence = true ∧ (safety_flags t).kid_safe = false) := by
  refine ⟨rfl, fun _ _ _ _ => rfl, fun hsw => ?_⟩
  have hv : (safety_flags t).violence = true := by
    show reSearch VIOLENCE_WORDS t = true
    unfold reSearch
    rw [List.any_eq_true]
    refine ⟨lit "sword", by decide, ?_⟩
    have : lowerStr (lit "sword") = lit "sword" := by decide
    rw [← this]
    exact hsw
  refine ⟨hv, ?_⟩
  have hk : (safety_flags t).kid_safe =
      !((safety_flags t).violence || (safety_flags t).sexual) := rfl
  rw [hk, hv]
  rfl

/-- C7 (witness): the concrete text "He drew his sword." is flagged violent
and not kid-safe. -/
theorem c7_witness :
    (safety_flags (lit "He drew his sword.")).violence = true ∧
    (safety_flags (lit "He drew his sword.")).kid_safe = false :=
  (c7_safety_flags (lit "He drew his sword.")).2.2 (by decide)

/-- C9: a DOM verse element with a valid 3-segment identifier whose
flattened text is empty still yields a record with empty text and zero
char_count from the import_kjv.py extractor, while the import_kjv_osis.py
patch variant yields nothing for it; on the concrete one-verse document the
two parsers return one record (with empty text) and no record
respectively. -/
theorem c9_empty_verse_divergence (x : XNode) (oid code p1 p2 : Str) (rest : List Str)
    (hoid : getAttr x (lit "osisID") = some oid)
    (hsplit : splitOnChar '.' oid = code :: p1 :: p2 :: rest)
    (hempty : extract_plain_text x = []) :
    (∃ r : Row, ImportKjv.verseRow x = some r ∧ r.text = [] ∧ r.char_count = 0) ∧
    ImportKjvOsis.verseRow x = none ∧
    (ImportKjv.parse_osis domEmptyExample).map
      (fun r => (r.osis_id, r.text, r.char_count)) = [(lit "Gen.1.1", [], 0)] ∧
    ImportKjvOsis.parse_osis domEmptyExample = [] := by
  refine ⟨?_, ?_, by decide, by decide⟩
  · unfold ImportKjv.verseRow
    simp only [hoid, hsplit]
    refine ⟨_, rfl, hempty, ?_⟩
    show (extract_plain_text x).length = 0
    rw [hempty]
    rfl
  · unfold ImportKjvOsis.verseRow
    simp only [hoid, hsplit]
    rw [if_pos hempty]

/-- C9 (witness): at the concrete whitespace-only verse element the patch
variant skips while import_kjv.py yields an empty-text record. -/
theorem c9_witness : ImportKjvOsis.verseRow domEmptyVerseNode = none :=
  (c9_empty_verse_divergence domEmptyVerseNode (lit "Gen.1.1") (lit "Gen") (lit "1") (lit "1")
    [] (by decide) (by decide) (by decide)).2.1

-- ===== Rounding lemmas (claim C8) =====

theorem roundHalfEven_bounds (x : ℚ) :
    ⌊x⌋ ≤ roundHalfEven x ∧ roundHalfEven x ≤ ⌊x⌋ + 1 := by
  simp only [roundHalfEven]
  split_ifs <;> omega

theorem roundHalfEven_intCast (n : ℤ) : roundHalfEven ((n : ℚ)) = n := by
  simp only [roundHalfEven]
  rw [Int.floor_intCast, sub_self, if_pos (by norm_num : (0 : ℚ) < 1/2)]

theorem roundHalfEven_mono {x y : ℚ} (h : x ≤ y) :
    roundHalfEven x ≤ roundHalfEven y := by
  have hf : ⌊x⌋ ≤ ⌊y⌋ := Int.floor_le_floor h
  rcases lt_or_eq_of_le hf with hlt | heq
  · have h1 := (roundHalfEven_bounds x).2
    have h2 := (roundHalfEven_bounds y).1
    omega
  · simp only [roundHalfEven]
    rw [← heq]
    have hr : x - (⌊x⌋ : ℚ) ≤ y - (⌊x⌋ : ℚ) := by linarith
    split_ifs <;> first | omega | linarith

theorem pyRound3_mono {x y : ℚ} (h : x ≤ y) : pyRound3 x ≤ pyRound3 y := by
  unfold pyRound3
  have h1 := roundHalfEven_mono (by linarith : 1000 * x ≤ 1000 * y)
  have h2 : ((roundHalfEven (1000 * x) : ℤ) : ℚ) ≤ ((roundHalfEven (1000 * y) : ℤ) : ℚ) := by
    exact_mod_cast h1
  linarith

theorem pyRound3_half : pyRound3 (1/2) = 1/2 := by
  unfold pyRound3
  have h5 : (1000 : ℚ) * (1/2) = ((500 : ℤ) : ℚ) := by norm_num
  rw [h5, roundHalfEven_intCast]
  norm_num

theorem roundHalfEven_lt_half (f : ℤ) {x : ℚ} (h1 : (f : ℚ) ≤ x)
    (h2 : x < (f : ℚ) + 1/2) : roundHalfEven x = f := by
  have hf : ⌊x⌋ = f := Int.floor_eq_iff.mpr ⟨h1, by push_cast; linarith⟩
  simp only [roundHalfEven]
  rw [hf, if_pos (by linarith)]

theorem roundHalfEven_gt_half (f : ℤ) {x : ℚ} (h1 : (f : ℚ) + 1/2 < x)
    (h2 : x < (f : ℚ) + 1) : roundHalfEven x = f + 1 := by
  have hf : ⌊x⌋ = f := Int.floor_eq_iff.mpr ⟨by linarith, by push_cast; linarith⟩
  simp only [roundHalfEven]
  rw [hf, if_neg (by linarith), if_pos (by linarith)]

theorem roundHalfEven_tie_odd (f : ℤ) {x : ℚ} (hx : x = (f : ℚ) + 1/2)
    (hf : f % 2 = 1) : roundHalfEven x = f + 1 := by
  have hfl : ⌊x⌋ = f := Int.floor_eq_iff.mpr ⟨by linarith, by push_cast; linarith⟩
  simp only [roundHalfEven]
  rw [hfl, if_neg (by rw [hx]; push_cast; linarith), if_neg (by rw [hx]; push_cast; linarith),
    if_neg (by omega)]

theorem roundHalfEven_close (x : ℚ) : |(roundHalfEven x : ℚ) - x| ≤ 1/2 := by
  have hf1 : (⌊x⌋ : ℚ) ≤ x := Int.floor_le x
  have hf2 : x < (⌊x⌋ : ℚ) + 1 := Int.lt_floor_add_one x
  simp only [roundHalfEven]
  rw [abs_le]
  split_ifs <;> constructor <;> push_cast <;> linarith

theorem roundHalfEven_rat_bounds (x : ℚ) :
    x - 1 ≤ (roundHalfEven x : ℚ) ∧ (roundHalfEven x : ℚ) ≤ x + 1 := by
  have h := roundHalfEven_bounds x
  have hf1 : (⌊x⌋ : ℚ) ≤ x := Int.floor_le x
  have hf2 : x < (⌊x⌋ : ℚ) + 1 := Int.lt_floor_add_one x
  have h1 : ((⌊x⌋ : ℤ) : ℚ) ≤ (roundHalfEven x : ℚ) := by exact_mod_cast h.1
  have h2 : (roundHalfEven x : ℚ) ≤ ((⌊x⌋ + 1 : ℤ) : ℚ) := by exact_mod_cast h.2
  push_cast at h2
  constructor <;> linarith

theorem pyRound3_bounds (x : ℚ) : x - 1/500 ≤ pyRound3 x ∧ pyRound3 x ≤ x + 1/500 := by
  unfold pyRound3
  have h := roundHalfEven_rat_bounds (1000 * x)
  constructor <;> linarith

theorem int_log_eq {x : ℚ} (e : ℤ) (h1 : (2 : ℚ) ^ e ≤ x) (h2 : x < (2 : ℚ) ^ (e + 1)) :
    Int.log 2 x = e := by
  have hx : 0 < x := lt_of_lt_of_le (by positivity) h1
  have hb : 1 < (2 : ℕ) := one_lt_two
  have h1a : ((2 : ℕ) : ℚ) ^ e ≤ x := by exact_mod_cast h1
  have h2a : x < ((2 : ℕ) : ℚ) ^ (e + 1) := by exact_mod_cast h2
  have hle : e ≤ Int.log 2 x := (Int.zpow_le_iff_le_log hb hx).mp h1a
  have hlt : Int.log 2 x < e + 1 := (Int.lt_zpow_iff_log_lt hb hx).mp h2a
  omega

theorem fl64_eq {x : ℚ} (e n : ℤ) (h1 : (2 : ℚ) ^ e ≤ x) (h2 : x < (2 : ℚ) ^ (e + 1))
    (hr : roundHalfEven (x * 2 ^ ((52 : ℤ) - e)) = n) :
    fl64 x = (n : ℚ) * 2 ^ (e - 52) := by
  have hx : 0 < x := lt_of_lt_of_le (by positivity) h1
  unfold fl64
  rw [if_pos hx, int_log_eq e h1 h2, hr]

theorem fl64_nonneg (x : ℚ) : 0 ≤ fl64 x := by
  unfold fl64
  split_ifs with hx
  · have hm : (0 : ℚ) ≤ x * 2 ^ ((52 : ℤ) - Int.log 2 x) := by positivity
    have h0 : (0 : ℤ) ≤ ⌊x * 2 ^ ((52 : ℤ) - Int.log 2 x)⌋ := Int.floor_nonneg.mpr hm
    have h1 := (roundHalfEven_bounds (x * 2 ^ ((52 : ℤ) - Int.log 2 x))).1
    have h2 : (0 : ℚ) ≤ (roundHalfEven (x * 2 ^ ((52 : ℤ) - Int.log 2 x)) : ℚ) := by
      exact_mod_cast le_trans h0 h1
    positivity
  · exact le_refl 0

theorem fl64_zero : fl64 0 = 0 := by norm_num [fl64]

theorem two_zpow_mul (a b : ℤ) : (2 : ℚ) ^ a * (2 : ℚ) ^ b = 2 ^ (a + b) :=
  (zpow_add₀ (by norm_num) a b).symm

theorem fl64_close {x : ℚ} (hx : 0 < x) : |fl64 x - x| ≤ x / 2 ^ 53 := by
  set e := Int.log 2 x with he
  have hb : 1 < (2 : ℕ) := one_lt_two
  have hlow : (2 : ℚ) ^ e ≤ x := by exact_mod_cast Int.zpow_log_le_self hb hx
  set m := x * 2 ^ ((52 : ℤ) - e) with hm
  have hcl := roundHalfEven_close m
  have hval : fl64 x = (roundHalfEven m : ℚ) * 2 ^ (e - 52) := by
    unfold fl64
    rw [if_pos hx, ← he, ← hm]
  have hid : m * 2 ^ (e - 52) = x := by
    rw [hm, mul_assoc, two_zpow_mul]
    norm_num
  have hpos : (0 : ℚ) < 2 ^ (e - 52) := by positivity
  have habs : |fl64 x - x| = |(roundHalfEven m : ℚ) - m| * 2 ^ (e - 52) := by
    rw [hval, ← hid, ← sub_mul, abs_mul, abs_of_pos hpos]
  rw [habs]
  have hstep : |(roundHalfEven m : ℚ) - m| * 2 ^ (e - 52) ≤ (1/2) * 2 ^ (e - 52) := by
    apply mul_le_mul_of_nonneg_right hcl (le_of_lt hpos)
  refine le_trans hstep ?_
  have h1 : (1/2 : ℚ) * 2 ^ (e - 52) = 2 ^ (e - 53) := by
    rw [show (1/2 : ℚ) = 2 ^ (-1 : ℤ) by norm_num, two_zpow_mul]
    congr 1
    ring
  rw [h1]
  have h2 : (2 : ℚ) ^ (e - 53) = 2 ^ e / 2 ^ 53 := by
    rw [show (e - 53 : ℤ) = e + (-53) by ring, ← two_zpow_mul]
    norm_num
    ring
  rw [h2]
  gcongr

theorem fl64_le {x : ℚ} (hx : 0 ≤ x) : fl64 x ≤ x + x / 2 ^ 53 := by
  rcases eq_or_lt_of_le hx with h0 | h0
  · rw [← h0]
    show fl64 0 ≤ 0 + 0 / 2 ^ 53
    norm_num [fl64]
  · have h := abs_le.mp (fl64_close h0)
    linarith [h.2]

theorem le_fl64 {x : ℚ} (hx : 0 ≤ x) : x - x / 2 ^ 53 ≤ fl64 x := by
  rcases eq_or_lt_of_le hx with h0 | h0
  · rw [← h0]
    show 0 - 0 / 2 ^ 53 ≤ fl64 0
    norm_num [fl64]
  · have h := abs_le.mp (fl64_close h0)
    linarith [h.1]

theorem fl64_mono {x y : ℚ} (h : x ≤ y) : fl64 x ≤ fl64 y := by
  by_cases hx : 0 < x
  · have hy : 0 < y := lt_of_lt_of_le hx h
    have hb : 1 < (2 : ℕ) := one_lt_two
    set ex := Int.log 2 x with hex
    set ey := Int.log 2 y with hey
    have hexy : ex ≤ ey := Int.log_mono_right hx h
    have hvx : fl64 x = (roundHalfEven (x * 2 ^ ((52 : ℤ) - ex)) : ℚ) * 2 ^ (ex - 52) := by
      unfold fl64
      rw [if_pos hx, ← hex]
    have hvy : fl64 y = (roundHalfEven (y * 2 ^ ((52 : ℤ) - ey)) : ℚ) * 2 ^ (ey - 52) := by
      unfold fl64
      rw [if_pos hy, ← hey]
    rcases eq_or_lt_of_le hexy with heq | hlt
    · rw [hvx, hvy, ← heq]
      have hmm : x * 2 ^ ((52 : ℤ) - ex) ≤ y * 2 ^ ((52 : ℤ) - ex) := by
        apply mul_le_mul_of_nonneg_right h (by positivity)
      have hr : ((roundHalfEven (x * 2 ^ ((52 : ℤ) - ex)) : ℤ) : ℚ) ≤
          ((roundHalfEven (y * 2 ^ ((52 : ℤ) - ex)) : ℤ) : ℚ) := by
        exact_mod_cast roundHalfEven_mono hmm
      apply mul_le_mul_of_nonneg_right hr (by positivity)
    · have hxhigh : x < (2 : ℚ) ^ (ex + 1) := by
        exact_mod_cast Int.lt_zpow_succ_log_self hb x
      have hylow : (2 : ℚ) ^ ey ≤ y := by
        exact_mod_cast Int.zpow_log_le_self hb hy
      have hup : fl64 x ≤ (2 : ℚ) ^ (ex + 1) := by
        rw [hvx]
        have hm : x * 2 ^ ((52 : ℤ) - ex) < 2 ^ (ex + 1) * 2 ^ ((52 : ℤ) - ex) := by
          apply mul_lt_mul_of_pos_right hxhigh (by positivity)
        rw [two_zpow_mul] at hm
        have hm53 : x * 2 ^ ((52 : ℤ) - ex) < 2 ^ (53 : ℤ) := by
          convert hm using 2
          ring
        have hfl : ⌊x * 2 ^ ((52 : ℤ) - ex)⌋ < 2 ^ 53 := by
          apply Int.floor_lt.mpr
          exact_mod_cast hm53
        have hrb := (roundHalfEven_bounds (x * 2 ^ ((52 : ℤ) - ex))).2
        have hrle : roundHalfEven (x * 2 ^ ((52 : ℤ) - ex)) ≤ 2 ^ 53 := by omega
        have hrleq : ((roundHalfEven (x * 2 ^ ((52 : ℤ) - ex)) : ℤ) : ℚ) ≤
            (2 : ℚ) ^ (53 : ℕ) := by
          exact_mod_cast hrle
        calc (roundHalfEven (x * 2 ^ ((52 : ℤ) - ex)) : ℚ) * 2 ^ (ex - 52)
            ≤ (2 : ℚ) ^ (53 : ℕ) * 2 ^ (ex - 52) := by
              apply mul_le_mul_of_nonneg_right hrleq (by positivity)
        _ = (2 : ℚ) ^ (ex + 1) := by
              rw [show ((2 : ℚ) ^ (53 : ℕ)) = (2 : ℚ) ^ (53 : ℤ) by norm_num, two_zpow_mul]
              congr 1
              ring
      have hdown : (2 : ℚ) ^ ey ≤ fl64 y := by
        rw [hvy]
        have hm : (2 : ℚ) ^ ey * 2 ^ ((52 : ℤ) - ey) ≤ y * 2 ^ ((52 : ℤ) - ey) := by
          apply mul_le_mul_of_nonneg_right hylow (by positivity)
        rw [two_zpow_mul] at hm
        have hm52 : (2 : ℚ) ^ (52 : ℤ) ≤ y * 2 ^ ((52 : ℤ) - ey) := by
          convert hm using 2
          ring
        have hfl : (2 : ℤ) ^ 52 ≤ ⌊y * 2 ^ ((52 : ℤ) - ey)⌋ := by
          apply Int.le_floor.mpr
          exact_mod_cast hm52
        have hrb := (roundHalfEven_bounds (y * 2 ^ ((52 : ℤ) - ey))).1
        have hrge : (2 : ℤ) ^ 52 ≤ roundHalfEven (y * 2 ^ ((52 : ℤ) - ey)) := by omega
        have hrgeq : (2 : ℚ) ^ (52 : ℕ) ≤
            ((roundHalfEven (y * 2 ^ ((52 : ℤ) - ey)) : ℤ) : ℚ) := by
          exact_mod_cast hrge
        calc (2 : ℚ) ^ ey
            = (2 : ℚ) ^ (52 : ℕ) * 2 ^ (ey - 52) := by
              rw [show ((2 : ℚ) ^ (52 : ℕ)) = (2 : ℚ) ^ (52 : ℤ) by norm_num, two_zpow_mul]
              congr 1
              ring
        _ ≤ _ := by
              apply mul_le_mul_of_nonneg_right hrgeq (by positivity)
      have hmid : (2 : ℚ) ^ (ex + 1) ≤ (2 : ℚ) ^ ey := by
        apply zpow_le_zpow_right₀ (by norm_num) (by omega)
      linarith
  · push_neg at hx
    have h0 : fl64 x = 0 := by
      unfold fl64
      rw [if_neg (by linarith)]
    rw [h0]
    exact fl64_nonneg y

theorem fl64_half : fl64 (1/2) = 1/2 := by
  have h := fl64_eq (x := (1/2 : ℚ)) (-1) (2 ^ 52)
    (by norm_num) (by norm_num)
    (by
      have hm : (1/2 : ℚ) * 2 ^ ((52 : ℤ) - (-1)) = (((2 : ℤ) ^ 52 : ℤ) : ℚ) := by norm_num
      rw [hm, roundHalfEven_intCast])
  rw [h]
  norm_num

theorem fl64_q3 : fl64 (3/400) = 8646911284551352 * (2 : ℚ) ^ (-(60 : ℤ)) := by
  have h := fl64_eq (x := (3/400 : ℚ)) (-8) 8646911284551352
    (by norm_num) (by norm_num)
    (by apply roundHalfEven_lt_half 8646911284551352 <;> norm_num)
  rw [h]
  norm_num

theorem famBase_137 : famBase 137 = 4571153621781053 * (2 : ℚ) ^ (-(53 : ℤ)) := by
  unfold famBase
  have hk : ((max 0 (140 - ((137 : ℕ) : ℤ)) : ℤ) : ℚ) = 3 := by norm_num
  rw [hk, fl64_q3]
  have h := fl64_eq (x := (1/2 + 8646911284551352 * (2 : ℚ) ^ (-(60 : ℤ)) : ℚ))
    (-1) 4571153621781053
    (by norm_num) (by norm_num)
    (by apply roundHalfEven_lt_half 4571153621781053 <;> norm_num)
  rw [h]
  norm_num

theorem fam_at_137 :
    familiarity_score (List.replicate 137 'a') =
      4566650022153683 * (2 : ℚ) ^ (-(53 : ℤ)) := by
  unfold familiarity_score pyRound3F
  rw [List.length_replicate, famBase_137]
  have hd : pyRound3 (4571153621781053 * (2 : ℚ) ^ (-(53 : ℤ))) = 507/1000 := by
    unfold pyRound3
    rw [roundHalfEven_lt_half 507 (by norm_num) (by norm_num)]
    norm_num
  rw [hd]
  have h := fl64_eq (x := (507/1000 : ℚ)) (-1) 4566650022153683
    (by norm_num) (by norm_num)
    (by apply roundHalfEven_gt_half 4566650022153682 <;> norm_num)
  rw [h]
  rw [min_eq_right (by norm_num), max_eq_right (by norm_num)]
  norm_num

theorem spec_at_137 : familiaritySpec (List.replicate 137 'a') = 508/1000 := by
  unfold familiaritySpec
  rw [List.length_replicate]
  have hk : ((max 0 (140 - ((137 : ℕ) : ℤ)) : ℤ) : ℚ) = 3 := by norm_num
  rw [hk]
  rw [max_eq_right (by norm_num), min_eq_right (by norm_num)]
  unfold pyRound3
  rw [roundHalfEven_tie_odd 507 (by norm_num) (by norm_num)]
  norm_num

/-- C8 (counterexample): at length 137 the spec formula — exact
`clamp(0.5 + max(0, 140 - L)/400, 0, 1)` rounded half-even to 3 decimals
— is 0.508 (the base is the exact tie 0.5075), but the program computes
the base in binary64, where it is stored as a double slightly below
0.5075, so CPython `round(base, 3)` returns the double nearest 0.507 and
`familiarity_score` differs from the spec value. -/
theorem c8_counterexample :
    familiaritySpec (List.replicate 137 'a') = 508/1000 ∧
    familiarity_score (List.replicate 137 'a') =
      4566650022153683 * (2 : ℚ) ^ (-(53 : ℤ)) ∧
    familiarity_score (List.replicate 137 'a') ≠
      familiaritySpec (List.replicate 137 'a') := by
  refine ⟨spec_at_137, fam_at_137, ?_⟩
  rw [fam_at_137, spec_at_137]
  norm_num

/-- C8 (amended): over the faithful binary64 model, `familiarity_score`
equals the clamped base rounded via CPython float rounding (clamping
before or after rounding is immaterial since every base lies in [0, 1]),
always lies in [0, 1], is non-increasing in the text length, and equals
exactly 1/2 as soon as the length reaches 140 — but it can differ from
the exact decimal rounding of the exact formula (see the
counterexample at length 137). -/
theorem c8_familiarity_faithful (t : Str) :
    familiarity_score t =
      pyRound3F (min 1 (max 0 (famBase t.length))) ∧
    0 ≤ familiarity_score t ∧ familiarity_score t ≤ 1 ∧
    (∀ u : Str, t.length ≤ u.length → familiarity_score u ≤ familiarity_score t) ∧
    (140 ≤ t.length → familiarity_score t = 1/2) := by
  have h53 : ((2 : ℚ) ^ 53) = 9007199254740992 := by norm_num
  have hbase : ∀ N : ℕ, 49/100 ≤ famBase N ∧ famBase N ≤ 87/100 := by
    intro N
    unfold famBase
    set q : ℚ := ((max 0 (140 - (N : ℤ)) : ℤ) : ℚ) / 400 with hqdef
    have hk0 : (0 : ℤ) ≤ max 0 (140 - (N : ℤ)) := le_max_left 0 _
    have hk1 : max 0 (140 - (N : ℤ)) ≤ 140 := max_le (by norm_num) (by omega)
    have hq0c : (0 : ℚ) ≤ ((max 0 (140 - (N : ℤ)) : ℤ) : ℚ) := by exact_mod_cast hk0
    have hq0 : (0 : ℚ) ≤ q := by rw [hqdef]; exact div_nonneg hq0c (by norm_num)
    have hq1 : q ≤ 7/20 := by
      rw [hqdef]
      have hc : ((max 0 (140 - (N : ℤ)) : ℤ) : ℚ) ≤ 140 := by exact_mod_cast hk1
      linarith
    have ht1 := fl64_le hq0
    have ht0 := fl64_nonneg q
    rw [h53] at ht1
    set s : ℚ := 1/2 + fl64 q with hsdef
    have hs0 : (0 : ℚ) ≤ s := by rw [hsdef]; linarith
    have hslo : (1 : ℚ)/2 ≤ s := by rw [hsdef]; linarith
    have hshi : s ≤ 86/100 := by rw [hsdef]; linarith
    have hb1 := fl64_le hs0
    have hb0 := le_fl64 hs0
    rw [h53] at hb1 hb0
    constructor <;> linarith
  have hv : ∀ N : ℕ, 48/100 ≤ pyRound3F (famBase N) ∧ pyRound3F (famBase N) ≤ 89/100 := by
    intro N
    obtain ⟨hb0, hb1⟩ := hbase N
    unfold pyRound3F
    set p : ℚ := pyRound3 (famBase N) with hpdef
    have hp := pyRound3_bounds (famBase N)
    rw [← hpdef] at hp
    have hp0 : 0 ≤ p := by linarith [hp.1]
    have h1 := fl64_le hp0
    have h0 := le_fl64 hp0
    rw [h53] at h1 h0
    constructor <;> linarith [hp.1, hp.2]
  have hval : ∀ u : Str, familiarity_score u = pyRound3F (famBase u.length) := by
    intro u
    unfold familiarity_score
    rw [min_eq_right (by linarith [(hv u.length).2]),
      max_eq_right (by linarith [(hv u.length).1])]
  refine ⟨?_, ?_, ?_, ?_, ?_⟩
  · rw [hval t,
      max_eq_right (by linarith [(hbase t.length).1] : (0 : ℚ) ≤ famBase t.length),
      min_eq_right (by linarith [(hbase t.length).2] : famBase t.length ≤ 1)]
  · rw [hval t]
    linarith [(hv t.length).1]
  · rw [hval t]
    linarith [(hv t.length).2]
  · intro u hu
    rw [hval t, hval u]
    unfold pyRound3F
    apply fl64_mono
    apply pyRound3_mono
    unfold famBase
    apply fl64_mono
    have hk : max 0 (140 - (u.length : ℤ)) ≤ max 0 (140 - (t.length : ℤ)) :=
      max_le (le_max_left 0 _) (le_max_of_le_right (by omega))
    have hkq : ((max 0 (140 - (u.length : ℤ)) : ℤ) : ℚ) ≤
        ((max 0 (140 - (t.length : ℤ)) : ℤ) : ℚ) := by
      exact_mod_cast hk
    have hdiv : ((max 0 (140 - (u.length : ℤ)) : ℤ) : ℚ) / 400 ≤
        ((max 0 (140 - (t.length : ℤ)) : ℤ) : ℚ) / 400 := by linarith
    have hfl := fl64_mono hdiv
    linarith
  · intro h140
    rw [hval t]
    unfold famBase
    have hk : max 0 (140 - (t.length : ℤ)) = 0 := max_eq_left (by omega)
    rw [hk]
    have h0 : (((0 : ℤ) : ℚ)) / 400 = 0 := by norm_num
    rw [h0, fl64_zero, add_zero, fl64_half]
    unfold pyRound3F
    rw [pyRound3_half, fl64_half]

/-- C8 (witness): the familiarity score is non-increasing between the
concrete texts "ab" and "abc". -/
theorem c8_witness :
    familiarity_score (lit "abc") ≤ familiarity_score (lit "ab") :=
  (c8_familiarity_faithful (lit "ab")).2.2.2.1 (lit "abc") (by decide)

-- ===== Softmax lemmas (claim C6) =====

theorem sum_map_div (l : List ℝ) (d : ℝ) :
    (l.map (fun v => v / d)).sum = l.sum / d := by
  induction l with
  | nil => simp
  | cons x xs ih => simp [ih, add_div]

theorem softmax_length (x : List ℝ) : (softmax x).length = x.length := by
  simp [softmax]

theorem exp_sum_pos {x : List ℝ} (hx : x ≠ []) (m : ℝ) :
    0 < (x.map (fun v => Real.exp (v - m))).sum := by
  apply List.sum_pos
  · intro y hy
    rcases List.mem_map.mp hy with ⟨w, _, rfl⟩
    exact Real.exp_pos _
  · intro hmap
    exact hx (List.map_eq_nil.mp hmap)

theorem softmax_pos {x : List ℝ} (hx : x ≠ []) : ∀ p ∈ softmax x, 0 < p := by
  intro p hp
  simp only [softmax] at hp
  rcases List.mem_map.mp hp with ⟨e, he, rfl⟩
  exact div_pos
    (by rcases List.mem_map.mp he with ⟨w, _, rfl⟩; exact Real.exp_pos _)
    (exp_sum_pos hx _)

theorem softmax_sum {x : List ℝ} (hx : x ≠ []) : (softmax x).sum = 1 := by
  simp only [softmax]
  rw [sum_map_div]
  exact div_self (ne_of_gt (exp_sum_pos hx _))

/-- C6: the daypart distribution has exactly 4 entries and the tone
distribution exactly 5, every entry is non-negative, each distribution sums
to exactly 1 (both on the embedding path and on the no-embedding fallback
path), and on the embedding path each distribution is precisely the
max-shifted softmax of the similarity vector against all centroids of the
vocabulary, with no thresholding. -/
theorem c6_distributions (embed : List Str → List RVec) (v_embed : Option RVec)
    (h4 : (embed DAYPART_LABEL_TEXTS).length = 4)
    (h5 : (embed TONE_LABEL_TEXTS).length = 5) :
    (daypart_probs_from_semantics embed v_embed).length = 4 ∧
    (tone_probs_from_semantics embed v_embed).length = 5 ∧
    (∀ p ∈ daypart_probs_from_semantics embed v_embed, 0 ≤ p) ∧
    (∀ p ∈ tone_probs_from_semantics embed v_embed, 0 ≤ p) ∧
    (daypart_probs_from_semantics embed v_embed).sum = 1 ∧
    (tone_probs_from_semantics embed v_embed).sum = 1 ∧
    (∀ u : RVec, v_embed = some u →
      daypart_probs_from_semantics embed v_embed =
        softmax ((embed DAYPART_LABEL_TEXTS).map (fun c => dotR c u)) ∧
      tone_probs_from_semantics embed v_embed =
        softmax ((embed TONE_LABEL_TEXTS).map (fun c => dotR c u))) := by
  cases v_embed with
  | none =>
    refine ⟨rfl, rfl, ?_, ?_, by norm_num [daypart_probs_from_semantics],
      by norm_num [tone_probs_from_semantics], ?_⟩
    · intro p hp
      simp only [daypart_probs_from_semantics, List.mem_cons] at hp
      rcases hp with rfl | rfl | rfl | rfl | hp
      · norm_num
      · norm_num
      · norm_num
      · norm_num
      · simp at hp
    · intro p hp
      simp only [tone_probs_from_semantics, List.mem_cons] at hp
      rcases hp with rfl | rfl | rfl | rfl | rfl | hp
      · norm_num
      · norm_num
      · norm_num
      · norm_num
      · norm_num
      · simp at hp
    · intro u hu
      exact absurd hu (by simp)
  | some u =>
    have hne4 : (embed DAYPART_LABEL_TEXTS).map (fun c => dotR c u) ≠ [] := by
      intro hmap
      have := congrArg List.length hmap
      rw [List.length_map, h4] at this
      simp at this
    have hne5 : (embed TONE_LABEL_TEXTS).map (fun c => dotR c u) ≠ [] := by
      intro hmap
      have := congrArg List.length hmap
      rw [List.length_map, h5] at this
      simp at this
    refine ⟨?_, ?_, ?_, ?_, softmax_sum hne4, softmax_sum hne5, fun w hw => ?_⟩
    · show (softmax _).length = 4
      rw [softmax_length, List.length_map, h4]
    · show (softmax _).length = 5
      rw [softmax_length, List.length_map, h5]
    · exact fun p hp => le_of_lt (softmax_pos hne4 p hp)
    · exact fun p hp => le_of_lt (softmax_pos hne5 p hp)
    · cases hw
      exact ⟨rfl, rfl⟩

/-- C6 (witness): with a length-preserving label embedder and the fallback
fingerprint, the daypart distribution has 4 entries. -/
theorem c6_witness :
    (daypart_probs_from_semantics (fun ts => ts.map (fun _ => ([] : RVec))) none).length = 4 :=
  (c6_distributions (fun ts => ts.map (fun _ => ([] : RVec))) none rfl rfl).1

-- ===== Fallback-embedding lemmas (claim C10) =====

theorem l2norm_nonneg (v : RVec) : 0 ≤ l2norm v := Real.sqrt_nonneg _

theorem sumsq_nonneg (v : RVec) : 0 ≤ (v.map (fun x => x ^ 2)).sum := by
  apply List.sum_nonneg
  intro y hy
  rcases List.mem_map.mp hy with ⟨w, _, rfl⟩
  exact sq_nonneg w

theorem l2norm_normalizeRow (v : RVec) :
    l2norm (normalizeRow v) = l2norm v / (l2norm v + 1e-9) := by
  have hc : (0 : ℝ) < l2norm v + 1e-9 := by
    have h0 := l2norm_nonneg v
    have h1 : (0 : ℝ) < 1e-9 := by norm_num
    linarith
  set c := l2norm v + 1e-9 with hcdef
  show l2norm (v.map (fun x => x / c)) = l2norm v / c
  rw [show l2norm (v.map (fun x => x / c)) =
      Real.sqrt (((v.map (fun x => x / c)).map (fun x => x ^ 2)).sum) from rfl]
  rw [List.map_map]
  have hfun : ((fun x => x ^ 2) ∘ fun x => x / c) =
      ((fun y => y / c ^ 2) ∘ fun x => x ^ 2) := by
    funext x
    simp [div_pow]
  rw [hfun, ← List.map_map, sum_map_div]
  rw [show (v.map (fun x => x ^ 2)).sum = l2norm v ^ 2 from ?_]
  · rw [Real.sqrt_div (sq_nonneg _), Real.sqrt_sq (le_of_lt hc), Real.sqrt_sq (l2norm_nonneg v)]
  · exact (Real.sq_sqrt (sumsq_nonneg v)).symm

theorem normalized_norm_close (raw : RVec) (hnn : ∀ x ∈ raw, 0 ≤ x)
    (hbig : ∃ x ∈ raw, 1/100 ≤ x) :
    |l2norm (normalizeRow raw) - 1| ≤ 1/1000000 := by
  obtain ⟨x0, hx0m, hx0⟩ := hbig
  have hx0nn : (0 : ℝ) ≤ 1/100 := by norm_num
  have hS : ((1 : ℝ)/100) ^ 2 ≤ (raw.map (fun x => x ^ 2)).sum := by
    have hmem : x0 ^ 2 ∈ raw.map (fun x => x ^ 2) := List.mem_map.mpr ⟨x0, hx0m, rfl⟩
    have hx2 : ((1 : ℝ)/100) ^ 2 ≤ x0 ^ 2 := pow_le_pow_left hx0nn hx0 2
    calc ((1 : ℝ)/100) ^ 2 ≤ x0 ^ 2 := hx2
    _ ≤ (raw.map (fun x => x ^ 2)).sum := by
        apply List.single_le_sum _ _ hmem
        intro y hy
        rcases List.mem_map.mp hy with ⟨w, _, rfl⟩
        exact sq_nonneg w
  have hn : (1 : ℝ)/100 ≤ l2norm raw := by
    have hsq := Real.sqrt_le_sqrt hS
    rwa [Real.sqrt_sq hx0nn] at hsq
  have hc : (0 : ℝ) < l2norm raw + 1e-9 := by
    have := l2norm_nonneg raw
    norm_num
    linarith
  rw [l2norm_normalizeRow]
  have h1 : l2norm raw / (l2norm raw + 1e-9) - 1 = -((1e-9 : ℝ) / (l2norm raw + 1e-9)) := by
    field_simp
  rw [h1, abs_neg, abs_of_nonneg (by positivity)]
  rw [div_le_iff hc]
  nlinarith [hn]

/-- C10: the fallback path of `embed_texts` is deterministic and its output
depends only on the number of input texts — two same-length text lists give
the identical matrix of row-normalised pseudo-random vectors; every output
row is the normalisation of a raw 384-entry row of the fixed stream; and a
normalised row whose raw entries are non-negative with at least one entry
at least 1/100 has Euclidean norm within 1/1000000 of 1. -/
theorem c10_fallback_embedding :
    (∀ (stream : ℕ → ℕ → ℝ) (t1 t2 : List Str), t1.length = t2.length →
      embed_texts_fallback stream t1 = embed_texts_fallback stream t2) ∧
    (∀ (stream : ℕ → ℕ → ℝ) (texts : List Str) (row : RVec),
      row ∈ embed_texts_fallback stream texts →
      ∃ raw : RVec, raw.length = EMBED_DIM ∧ row = normalizeRow raw) ∧
    (∀ raw : RVec, (∀ x ∈ raw, 0 ≤ x) → (∃ x ∈ raw, 1/100 ≤ x) →
      |l2norm (normalizeRow raw) - 1| ≤ 1/1000000) := by
  refine ⟨?_, ?_, normalized_norm_close⟩
  · intro stream t1 t2 h
    unfold embed_texts_fallback
    rw [h]
  · intro stream texts row hrow
    unfold embed_texts_fallback at hrow
    rcases List.mem_map.mp hrow with ⟨i, _, rfl⟩
    exact ⟨_, by simp, rfl⟩

/-- C10 (witness): two different one-text inputs give the identical output
under a concrete stream, and the normalisation of the concrete raw row [1]
has norm within 1/1000000 of 1. -/
theorem c10_witness :
    embed_texts_fallback (fun _ _ => 1) [lit "alpha"] =
      embed_texts_fallback (fun _ _ => 1) [lit "beta"] ∧
    |l2norm (normalizeRow [(1 : ℝ)]) - 1| ≤ 1/1000000 :=
  ⟨c10_fallback_embedding.1 (fun _ _ => 1) [lit "alpha"] [lit "beta"] rfl,
   c10_fallback_embedding.2.2 [(1 : ℝ)] (by simp)
     ⟨1, by simp, by norm_num⟩⟩

-- ===== Theme-classification lemmas (claim C5) =====

theorem theme_tags_some_eq (cents : List RVec) (v : RVec) (text : Str) :
    theme_tags_from_semantics cents (some v) text =
      if themeTop3 cents v = [] then [lit "comfort"]
      else (themeTop3 cents v).map (fun idx => THEME_NAMES.getD idx []) := by
  simp only [theme_tags_from_semantics, themeTop3, themeSims]
  exact if_congr List.map_eq_nil_iff rfl rfl

/-- C5: for the embedding path of theme classification, the argsort order
is a descending sort of the similarity vector and a permutation of the 15
candidate indices; the result is exactly the top-3 indices clearing the
0.25 floor mapped to their labels, or the single fallback label "comfort"
when nothing clears the floor; every selected index has similarity at
least 0.25; and the result always carries between 1 and 3 labels drawn
from the 15-entry theme vocabulary. -/
theorem c5_theme_selection (cents : List RVec) (v : RVec) (text : Str)
    (hlen : cents.length = 15) :
    List.Sorted (fun i j => (themeSims cents v).getD j 0 ≤ (themeSims cents v).getD i 0)
      (argsortDesc (themeSims cents v)) ∧
    (argsortDesc (themeSims cents v)).Perm (List.range 15) ∧
    theme_tags_from_semantics cents (some v) text =
      (if themeTop3 cents v = [] then [lit "comfort"]
       else (themeTop3 cents v).map (fun idx => THEME_NAMES.getD idx [])) ∧
    (∀ idx ∈ themeTop3 cents v, (0.25 : ℝ) ≤ (themeSims cents v).getD idx 0) ∧
    1 ≤ (theme_tags_from_semantics cents (some v) text).length ∧
    (theme_tags_from_semantics cents (some v) text).length ≤ 3 ∧
    (∀ l ∈ theme_tags_from_semantics cents (some v) text, l ∈ THEME_NAMES) ∧
    ((∀ i < 15, (themeSims cents v).getD i 0 < 0.25) →
      theme_tags_from_semantics cents (some v) text = [lit "comfort"]) := by
  have hsimslen : (themeSims cents v).length = 15 := by
    rw [themeSims, List.length_map, hlen]
  have hperm : (argsortDesc (themeSims cents v)).Perm (List.range 15) := by
    rw [← hsimslen]
    exact List.perm_insertionSort _ _
  have hidx : ∀ idx ∈ themeTop3 cents v, idx < 15 := by
    intro idx hid
    have h1 : idx ∈ (argsortDesc (themeSims cents v)).take 3 := List.mem_of_mem_filter hid
    have h2 : idx ∈ argsortDesc (themeSims cents v) := List.take_subset 3 _ h1
    have h3 : idx ∈ List.range 15 := hperm.mem_iff.mp h2
    exact List.mem_range.mp h3
  have hthresh : ∀ idx ∈ themeTop3 cents v,
      (0.25 : ℝ) ≤ (themeSims cents v).getD idx 0 := by
    intro idx hid
    have := List.of_mem_filter hid
    rw [decide_eq_true_eq] at this
    exact not_lt.mp this
  have hsorted : List.Sorted
      (fun i j => (themeSims cents v).getD j 0 ≤ (themeSims cents v).getD i 0)
      (argsortDesc (themeSims cents v)) := by
    haveI : IsTotal ℕ
        (fun i j => (themeSims cents v).getD j 0 ≤ (themeSims cents v).getD i 0) :=
      ⟨fun a b => le_total _ _⟩
    haveI : IsTrans ℕ
        (fun i j => (themeSims cents v).getD j 0 ≤ (themeSims cents v).getD i 0) :=
      ⟨fun a b c hab hbc => le_trans hbc hab⟩
    exact List.sorted_insertionSort _ _
  have heq := theme_tags_some_eq cents v text
  refine ⟨hsorted, hperm, heq, hthresh, ?_, ?_, ?_, ?_⟩
  · rw [heq]
    split
    · simp
    · rename_i hne
      rw [List.length_map]
      exact List.length_pos.mpr hne
  · rw [heq]
    split
    · simp
    · rw [List.length_map]
      calc (themeTop3 cents v).length
          ≤ ((argsortDesc (themeSims cents v)).take 3).length :=
            List.length_filter_le _ _
      _ ≤ 3 := by
          rw [List.length_take]
          exact min_le_left 3 _
  · rw [heq]
    split
    · intro l hl
      rw [List.mem_singleton] at hl
      subst hl
      decide
    · intro l hl
      rcases List.mem_map.mp hl with ⟨idx, hid, rfl⟩
      have h15 : idx < THEME_NAMES.length := by
        have := hidx idx hid
        simpa using this
      rw [List.getD_eq_getElem THEME_NAMES [] h15]
      exact List.getElem_mem h15
  · intro hall
    rw [heq]
    rw [if_pos ?_]
    apply List.filter_eq_nil.mpr
    intro idx hid
    have hlt : idx < 15 := by
      have h2 : idx ∈ argsortDesc (themeSims cents v) := List.take_subset 3 _ hid
      exact List.mem_range.mp (hperm.mem_iff.mp h2)
    rw [decide_eq_true_eq]
    intro hcontra
    exact hcontra (hall idx hlt)

/-- C5 (witness): with 15 concrete (empty) centroids, the classifier
returns at least one label. -/
theorem c5_witness :
    1 ≤ (theme_tags_from_semantics (List.replicate 15 ([] : RVec)) (some []) []).length :=
  (c5_theme_selection (List.replicate 15 ([] : RVec)) [] [] (by simp)).2.2.2.2.1

-- ===== Decimal-digit lemmas (claim C2) =====

theorem digitVal_digitChar {d : Nat} (h : d < 10) : digitVal (digitChar d) = d := by
  interval_cases d <;> decide

theorem digitChar_isDigit {d : Nat} (h : d < 10) : (digitChar d).isDigit = true := by
  interval_cases d <;> decide

theorem natDigitsCore_spec : ∀ (fuel n : Nat), n < fuel →
    digitsVal (natDigitsCore fuel n) = n ∧
    natDigitsCore fuel n ≠ [] ∧
    ∀ c ∈ natDigitsCore fuel n, c.isDigit = true := by
  intro fuel
  induction fuel with
  | zero => intro n h; omega
  | succ fuel ih =>
    intro n h
    unfold natDigitsCore
    by_cases h10 : n < 10
    · rw [if_pos h10]
      refine ⟨?_, by simp, ?_⟩
      · show digitsVal [digitChar n] = n
        unfold digitsVal
        rw [List.foldl_cons, List.foldl_nil]
        rw [digitVal_digitChar h10]
        omega
      · intro c hc
        rw [List.mem_singleton] at hc
        subst hc
        exact digitChar_isDigit h10
    · rw [if_neg h10]
      have hrec := ih (n / 10) (by omega)
      have hm : n % 10 < 10 := Nat.mod_lt n (by norm_num)
      refine ⟨?_, by simp, ?_⟩
      · unfold digitsVal
        rw [List.foldl_append, List.foldl_cons, List.foldl_nil]
        have h1 : (natDigitsCore fuel (n / 10)).foldl
            (fun a c => 10 * a + digitVal c) 0 = n / 10 := hrec.1
        rw [h1, digitVal_digitChar hm]
        omega
      · intro c hc
        rcases List.mem_append.mp hc with hc | hc
        · exact hrec.2.2 c hc
        · rw [List.mem_singleton] at hc
          subst hc
          exact digitChar_isDigit hm

theorem natDigits_val (n : Nat) : digitsVal (natDigits n) = n :=
  (natDigitsCore_spec (n + 1) n (by omega)).1

theorem natDigits_ne_nil (n : Nat) : natDigits n ≠ [] :=
  (natDigitsCore_spec (n + 1) n (by omega)).2.1

theorem natDigits_all_digits (n : Nat) : ∀ c ∈ natDigits n, c.isDigit = true :=
  (natDigitsCore_spec (n + 1) n (by omega)).2.2

theorem pyIntDigits_natDigits (n : Nat) : pyIntDigits (natDigits n) = n := by
  unfold pyIntDigits
  rw [List.filter_eq_self.mpr (natDigits_all_digits n), natDigits_val]

theorem dot_not_mem_natDigits (n : Nat) : '.' ∉ natDigits n := fun h =>
  absurd (natDigits_all_digits n '.' h) (by decide)

-- ===== String-splitting lemmas (claim C2) =====

theorem splitOnChar_cons (sep c : Char) (rest : Str) :
    splitOnChar sep (c :: rest) =
      if c = sep then [] :: splitOnChar sep rest
      else
        match splitOnChar sep rest with
        | [] => [[c]]
        | g :: gs => (c :: g) :: gs := rfl

theorem splitOnChar_not_mem {sep : Char} : ∀ {t : Str}, sep ∉ t →
    splitOnChar sep t = [t] := by
  intro t
  induction t with
  | nil => intro _; rfl
  | cons c rest ih =>
    intro h
    rw [splitOnChar_cons,
      if_neg (fun hc : c = sep => h (hc ▸ List.mem_cons_self c rest)),
      ih (fun hm => h (List.mem_cons_of_mem c hm))]

theorem splitOnChar_append {sep : Char} : ∀ {a : Str}, sep ∉ a → ∀ t : Str,
    splitOnChar sep (a ++ sep :: t) = a :: splitOnChar sep t := by
  intro a
  induction a with
  | nil =>
    intro _ t
    show splitOnChar sep (sep :: t) = [] :: splitOnChar sep t
    rw [splitOnChar_cons, if_pos rfl]
  | cons c rest ih =>
    intro h t
    show splitOnChar sep (c :: (rest ++ sep :: t)) = (c :: rest) :: splitOnChar sep t
    rw [splitOnChar_cons,
      if_neg (fun hc : c = sep => h (hc ▸ List.mem_cons_self c rest)),
      ih (fun hm => h (List.mem_cons_of_mem c hm)) t]

theorem splitOnChar_osis (code : Str) (hcode : '.' ∉ code) (c v : Nat) :
    splitOnChar '.' (code ++ lit "." ++ natDigits c ++ lit "." ++ natDigits v) =
      [code, natDigits c, natDigits v] := by
  have hdot : lit "." = ['.'] := rfl
  have h1 : code ++ lit "." ++ natDigits c ++ lit "." ++ natDigits v =
      code ++ '.' :: (natDigits c ++ '.' :: natDigits v) := by
    rw [hdot]
    simp [List.append_assoc]
  rw [h1, splitOnChar_append hcode, splitOnChar_append (dot_not_mem_natDigits c),
    splitOnChar_not_mem (dot_not_mem_natDigits v)]

-- ===== Book-table facts (claim C2) =====

theorem usfx_table_facts : ∀ p ∈ USFX_TO_OSIS, p.2 ≠ [] ∧ '.' ∉ p.2 := by decide

theorem book_map_eq : BOOK_NAME_MAP = OSIS_TO_NAME := rfl

theorem alookup_usfx_facts {k v : Str} (h : alookup USFX_TO_OSIS k = some v) :
    v ≠ [] ∧ '.' ∉ v := by
  unfold alookup at h
  rcases hf : USFX_TO_OSIS.find? (fun p => decide (p.1 = k)) with _ | p
  · rw [hf] at h
    simp at h
  · rw [hf] at h
    simp only [Option.map_some'] at h
    have hv : p.2 = v := Option.some.inj h
    rw [← hv]
    exact usfx_table_facts p (List.mem_of_find?_eq_some hf)

-- ===== DOM side of the cross-dialect equivalence (claim C2) =====

theorem filterMap_eq_map_of {α β : Type} (l : List α) (f : α → Option β) (g : α → β)
    (h : ∀ x ∈ l, f x = some (g x)) : l.filterMap f = l.map g := by
  induction l with
  | nil => rfl
  | cons x xs ih =>
    rw [List.filterMap_cons, h x (List.mem_cons_self x xs), List.map_cons,
      ih (fun y hy => h y (List.mem_cons_of_mem x hy))]

theorem filterMap_over_flatMap {α β γ : Type} (l : List α) (g : α → List β)
    (f : β → Option γ) :
    (l.flatMap g).filterMap f = l.flatMap (fun a => (g a).filterMap f) := by
  induction l with
  | nil => rfl
  | cons x xs ih =>
    rw [List.flatMap_cons, List.filterMap_append, ih, List.flatMap_cons]

theorem flatMap_congr {α β : Type} {l : List α} {f g : α → List β}
    (h : ∀ x ∈ l, f x = g x) : l.flatMap f = l.flatMap g := by
  induction l with
  | nil => rfl
  | cons x xs ih =>
    rw [List.flatMap_cons, List.flatMap_cons, h x (List.mem_cons_self x xs),
      ih (fun y hy => h y (List.mem_cons_of_mem x hy))]

theorem allNodesList_leaves : ∀ {xs : List XNode}, (∀ x ∈ xs, x.childrenOf = []) →
    allNodesList xs = xs := by
  intro xs
  induction xs with
  | nil => intro _; rfl
  | cons y ys ih =>
    intro h
    show allNodes y ++ allNodesList ys = y :: ys
    have hy : allNodes y = [y] := by
      rcases y with ⟨n, a, t, cs, tl⟩
      have hcs : cs = [] := h _ (List.mem_cons_self _ _)
      subst hcs
      rfl
    rw [hy, ih (fun x hx => h x (List.mem_cons_of_mem y hx))]
    rfl

theorem extract_encodeVerseD (osis : Str) (cn : Nat) (v : AbsVerse)
    (hcanon : CanonicalText v.text) :
    extract_plain_text (encodeVerseD osis cn v) = v.text := by
  unfold extract_plain_text
  show pyStrip (collapseWs (joinStrs (itertext (encodeVerseD osis cn v)))) = v.text
  rw [show joinStrs (itertext (encodeVerseD osis cn v)) = v.text ++ [] from rfl,
    List.append_nil, hcanon.2.1, hcanon.2.2]

theorem verseRow_encodeVerseD (b : AbsBook) (hb : (alookup USFX_TO_OSIS b.usfxCode).isSome)
    (cn : Nat) (v : AbsVerse) (hv : WFVerse v) :
    ImportKjv.verseRow (encodeVerseD (osisOf b) cn v) = some (expectedRow b cn v) := by
  obtain ⟨ob, hob⟩ := Option.isSome_iff_exists.mp hb
  have hfacts := alookup_usfx_facts hob
  have hosis : osisOf b = ob := by rw [osisOf, hob]; rfl
  unfold ImportKjv.verseRow
  have hoid : getAttr (encodeVerseD (osisOf b) cn v) (lit "osisID") =
      some (osisOf b ++ lit "." ++ natDigits cn ++ lit "." ++ natDigits v.num) := rfl
  have hsp := splitOnChar_osis (osisOf b) (hosis ▸ hfacts.2) cn v.num
  simp only [hoid, hsp]
  simp only [pyIntDigits_natDigits, extract_encodeVerseD (osisOf b) cn v hv.2,
    expectedRow, book_map_eq]

theorem c2_dom_eq (bible : List AbsBook) (hWF : WFBible bible) :
    ImportKjv.parse_osis (encodeDOM bible) = bible.flatMap bookRows := by
  unfold ImportKjv.parse_osis
  have hleaf : ∀ x ∈ bible.flatMap (fun b =>
      b.chapters.flatMap (fun c => c.verses.map (encodeVerseD (osisOf b) c.num))),
      x.childrenOf = [] := by
    intro x hx
    rcases List.mem_flatMap.mp hx with ⟨b, _, hx⟩
    rcases List.mem_flatMap.mp hx with ⟨c, _, hx⟩
    rcases List.mem_map.mp hx with ⟨v, _, rfl⟩
    rfl
  rw [show allNodes (encodeDOM bible) = encodeDOM bible ::
      allNodesList (bible.flatMap (fun b =>
        b.chapters.flatMap (fun c => c.verses.map (encodeVerseD (osisOf b) c.num)))) from rfl]
  rw [allNodesList_leaves hleaf]
  rw [List.filter_cons_of_neg (fun h => Bool.noConfusion h)]
  rw [List.filter_eq_self.mpr ?hpass]
  case hpass =>
    intro x hx
    rcases List.mem_flatMap.mp hx with ⟨b, _, hx⟩
    rcases List.mem_flatMap.mp hx with ⟨c, _, hx⟩
    rcases List.mem_map.mp hx with ⟨v, _, rfl⟩
    rfl
  rw [filterMap_over_flatMap]
  apply flatMap_congr
  intro b hb
  have hWFb : WFBook b := hWF b hb
  rw [filterMap_over_flatMap]
  unfold bookRows
  apply flatMap_congr
  intro c hc
  have hWFc : WFChapter c := hWFb.2 c hc
  rw [List.filterMap_map]
  apply filterMap_eq_map_of
  intro v hv
  exact verseRow_encodeVerseD b hWFb.1 c.num v (hWFc.2 v hv)

-- ===== Streaming side of the cross-dialect equivalence (claim C2) =====

theorem runEvents_nil (st : UState) : runEvents st [] = (st, []) := rfl

theorem runEvents_cons (st : UState) (e : XEvent) (es : List XEvent) :
    runEvents st (e :: es) =
      ((runEvents (stepEvent st e).1 es).1,
       (stepEvent st e).2 ++ (runEvents (stepEvent st e).1 es).2) := rfl

theorem runEvents_cons_eq {st st1 st2 : UState} {e : XEvent} {es : List XEvent}
    {r1 r2 : List Row}
    (h1 : stepEvent st e = (st1, r1)) (h2 : runEvents st1 es = (st2, r2)) :
    runEvents st (e :: es) = (st2, r1 ++ r2) := by
  rw [runEvents_cons, h1]
  show ((runEvents st1 es).1, r1 ++ (runEvents st1 es).2) = (st2, r1 ++ r2)
  rw [h2]

theorem runEvents_append_eq {es1 : List XEvent} :
    ∀ {st st1 st2 : UState} {es2 : List XEvent} {r1 r2 : List Row},
    runEvents st es1 = (st1, r1) → runEvents st1 es2 = (st2, r2) →
    runEvents st (es1 ++ es2) = (st2, r1 ++ r2) := by
  induction es1 with
  | nil =>
    intro st st1 st2 es2 r1 r2 h1 h2
    rw [runEvents_nil] at h1
    cases h1
    simpa using h2
  | cons e es ih =>
    intro st st1 st2 es2 r1 r2 h1 h2
    obtain ⟨sa, ra, hstep⟩ : ∃ sa ra, stepEvent st e = (sa, ra) := ⟨_, _, rfl⟩
    obtain ⟨sb, rb, hrun⟩ : ∃ sb rb, runEvents sa es = (sb, rb) := ⟨_, _, rfl⟩
    have hdecomp := (runEvents_cons_eq hstep hrun).symm.trans h1
    cases hdecomp
    rw [List.cons_append, List.append_assoc]
    exact runEvents_cons_eq hstep (ih hrun h2)

theorem eventsOfList_append : ∀ (xs ys : List XNode),
    eventsOfList (xs ++ ys) = eventsOfList xs ++ eventsOfList ys := by
  intro xs ys
  induction xs with
  | nil => rfl
  | cons x xs ih =>
    show eventsOf x ++ eventsOfList (xs ++ ys) = (eventsOf x ++ eventsOfList xs) ++ eventsOfList ys
    rw [ih, List.append_assoc]

theorem truthyNat_some_pos {n : Nat} (h : 0 < n) : truthyNat (some n) = true := by
  simp only [truthyNat, decide_eq_true_eq]
  omega

theorem markerNumId (n : Nat) (k2 : Str) :
    pyIntDigits (pyOrStr (getAttrL [(lit "id", natDigits n)] (lit "id"))
      (getAttrL [(lit "id", natDigits n)] k2)) = n := by
  have h0 : getAttrL [(lit "id", natDigits n)] (lit "id") = some (natDigits n) := rfl
  rw [h0]
  have h1 : pyOrStr (some (natDigits n)) (getAttrL [(lit "id", natDigits n)] k2) =
      natDigits n := by
    show (if natDigits n ≠ [] then natDigits n
      else
        match getAttrL [(lit "id", natDigits n)] k2 with
        | some y => if y ≠ [] then y else []
        | none => []) = natDigits n
    rw [if_pos (natDigits_ne_nil n)]
  rw [h1, pyIntDigits_natDigits]

theorem step_start_v (st : UState) (n : Nat) (hn : 0 < n) :
    stepEvent st (XEvent.start (lit "v") [(lit "id", natDigits n)] none) =
      ({ st with verse := some n, buffer := [] }, flushRows st) := by
  simp only [stepEvent]
  rw [if_neg (fun h : lit "v" = lit "book" ∧ st.osisBook = none => absurd h.1 (by decide))]
  rw [if_neg (fun h : lit "v" = lit "c" ∨ lit "v" = lit "chapter" =>
    h.elim (fun h => absurd h (by decide)) (fun h => absurd h (by decide)))]
  rw [if_pos (Or.inl trivial)]
  rw [markerNumId n (lit "number")]
  rw [if_pos hn, appendPiece_none]

theorem step_stop_v (st : UState) (t : Str) (ht : t ≠ []) (hts : pyStrip t = t)
    (hverse : truthyNat st.verse = true) (hchap : truthyNat st.chapter = true) :
    stepEvent st (XEvent.stop (lit "v") (some t)) =
      ({ st with buffer := st.buffer ++ [t] }, []) := by
  simp only [stepEvent]
  have happ : appendPiece st (lit "v") (some t) = { st with buffer := st.buffer ++ [t] } := by
    unfold appendPiece
    rw [if_pos ⟨hverse, hchap, (by decide : lit "v" ∉ SKIP_NAMES)⟩]
    show (if t ≠ [] ∧ pyStrip t ≠ [] then { st with buffer := st.buffer ++ [t] } else st) = _
    rw [if_pos ⟨ht, by rw [hts]; exact ht⟩]
  rw [happ, if_neg (fun h : lit "v" = lit "book" => absurd h (by decide))]

theorem step_start_c (st : UState) (n : Nat) (hn : 0 < n) :
    stepEvent st (XEvent.start (lit "c") [(lit "id", natDigits n)] none) =
      ({ st with chapter := some n, verse := none, buffer := [] }, flushRows st) := by
  simp only [stepEvent]
  rw [if_neg (fun h : lit "c" = lit "book" ∧ st.osisBook = none => absurd h.1 (by decide))]
  rw [if_pos (Or.inl trivial)]
  rw [markerNumId n (lit "number")]
  rw [if_pos hn]

theorem step_start_plain (st : UState) (nm : Str) (attrs : List (Str × Str))
    (h1 : ¬(nm = lit "book" ∧ st.osisBook = none))
    (h2 : ¬(nm = lit "c" ∨ nm = lit "chapter"))
    (h3 : ¬(nm = lit "v" ∨ nm = lit "verse")) :
    stepEvent st (XEvent.start nm attrs none) = (st, []) := by
  simp only [stepEvent]
  rw [if_neg h1, if_neg h2, if_neg h3, appendPiece_none]

theorem step_stop_other (st : UState) (nm : Str) (hnm : nm ≠ lit "book") :
    stepEvent st (XEvent.stop nm none) = (st, []) := by
  simp only [stepEvent]
  rw [appendPiece_none, if_neg hnm]

theorem step_stop_book (st : UState) :
    stepEvent st (XEvent.stop (lit "book") none) = (initUState, flushRows st) := by
  simp only [stepEvent]
  rw [appendPiece_none, if_pos trivial]

theorem step_start_book_known (st : UState) (hst : st.osisBook = none) (b : AbsBook)
    (hb : (alookup USFX_TO_OSIS b.usfxCode).isSome) :
    stepEvent st (XEvent.start (lit "book") [(lit "id", b.usfxCode)] none) =
      ({ st with bookCode := some b.usfxCode, osisBook := some (osisOf b),
                 bookName := some ((alookup OSIS_TO_NAME (osisOf b)).getD (osisOf b)) }, []) := by
  obtain ⟨ob, hob⟩ := Option.isSome_iff_exists.mp hb
  have hfacts := alookup_usfx_facts hob
  have hosis : osisOf b = ob := by rw [osisOf, hob]; rfl
  simp only [stepEvent]
  rw [if_pos ⟨trivial, hst⟩]
  have hcode : getAttrL [(lit "id", b.usfxCode)] (lit "id") = some b.usfxCode := rfl
  rw [hcode]
  simp only [Option.bind]
  rw [hob, hosis]
  show ({ st with bookCode := some b.usfxCode, osisBook := some ob,
                  bookName := if ob ≠ [] then some ((alookup OSIS_TO_NAME ob).getD ob) else none },
    ([] : List Row)) = _
  rw [if_pos hfacts.1]

theorem pendRows_some (b : AbsBook) (cn : Nat) (p : Option AbsVerse) :
    pendRows b (some cn) p = flushPend b cn p := by
  cases p <;> rfl

theorem joinBuffer_single {t : Str} (ht : t ≠ []) (hts : pyStrip t = t) :
    joinBuffer [t] = t := by
  unfold joinBuffer
  rw [List.filter_cons_of_pos (by simp [ht, hts])]
  rw [show List.filter (fun x => decide (x ≠ []) && decide (pyStrip x ≠ [])) [] = [] from rfl]
  rw [List.map_cons, List.map_nil, hts]
  rfl

theorem make_row_expectedRow (b : AbsBook) (cn : Nat) (v : AbsVerse)
    (hcanon : CanonicalText v.text) :
    make_row (osisOf b) (some ((alookup OSIS_TO_NAME (osisOf b)).getD (osisOf b)))
      cn v.num v.text = expectedRow b cn v := by
  simp only [make_row, expectedRow, pyFormatOpt]
  rw [hcanon.2.1, hcanon.2.2]

theorem flushRows_midState (b : AbsBook) (hb : (alookup USFX_TO_OSIS b.usfxCode).isSome)
    (ch : Option Nat) (p : Option AbsVerse)
    (hp : ∀ w, p = some w → WFVerse w)
    (hch : p ≠ none → ∃ cn, ch = some cn ∧ 0 < cn) :
    flushRows (midState b ch (pendVerse p) (pendBuf p)) = pendRows b ch p := by
  obtain ⟨ob, hob⟩ := Option.isSome_iff_exists.mp hb
  have hfacts := alookup_usfx_facts hob
  have hosis : osisOf b = ob := by rw [osisOf, hob]; rfl
  cases p with
  | none =>
    show flushRows (midState b ch none []) = pendRows b ch none
    cases ch <;> rfl
  | some w =>
    obtain ⟨cn, rfl, hcn⟩ := hch (by simp)
    have hwf := hp w rfl
    show flushRows (midState b (some cn) (some w.num) [w.text]) = [expectedRow b cn w]
    simp only [flushRows, midState]
    rw [if_pos ⟨by simp, by rw [hosis]; exact hfacts.1, by omega⟩]
    rw [joinBuffer_single hwf.2.1 hwf.2.2.2]
    rw [make_row_expectedRow b cn w hwf.2]

theorem lastPend_wf : ∀ (vs : List AbsVerse) (p : Option AbsVerse),
    (∀ v ∈ vs, WFVerse v) → (∀ w, p = some w → WFVerse w) →
    ∀ w, lastPend p vs = some w → WFVerse w := by
  intro vs
  induction vs with
  | nil => intro p _ hp w hw; exact hp w hw
  | cons v vs ih =>
    intro p hv hp w hw
    exact ih (some v) (fun u hu => hv u (List.mem_cons_of_mem _ hu))
      (fun u hu => by
        injection hu with hu
        exact hu ▸ hv v (List.mem_cons_self v vs)) w hw

theorem flushSeq_append_last (b : AbsBook) (cn : Nat) :
    ∀ (vs : List AbsVerse) (p : Option AbsVerse),
    flushSeq b cn p vs ++ flushPend b cn (lastPend p vs) =
      flushPend b cn p ++ vs.map (expectedRow b cn) := by
  intro vs
  induction vs with
  | nil => intro p; simp [flushSeq, lastPend]
  | cons v vs ih =>
    intro p
    show (flushPend b cn p ++ flushSeq b cn (some v) vs) ++
        flushPend b cn (lastPend (some v) vs) =
      flushPend b cn p ++ (expectedRow b cn v :: vs.map (expectedRow b cn))
    rw [List.append_assoc, ih (some v)]
    rfl

theorem run_verse (b : AbsBook) (hb : (alookup USFX_TO_OSIS b.usfxCode).isSome)
    (cn : Nat) (hcn : 0 < cn) (p : Option AbsVerse)
    (hp : ∀ w, p = some w → WFVerse w) (v : AbsVerse) (hv : WFVerse v) :
    runEvents (midState b (some cn) (pendVerse p) (pendBuf p)) (eventsOf (encodeVerseU v)) =
      (midState b (some cn) (some v.num) [v.text], flushPend b cn p) := by
  have h1 : stepEvent (midState b (some cn) (pendVerse p) (pendBuf p))
      (XEvent.start (lit "v") [(lit "id", natDigits v.num)] none) =
      (midState b (some cn) (some v.num) [], pendRows b (some cn) p) := by
    rw [step_start_v _ v.num hv.1,
      flushRows_midState b hb (some cn) p hp (fun _ => ⟨cn, rfl, hcn⟩)]
    exact Prod.ext rfl rfl
  have h2 : stepEvent (midState b (some cn) (some v.num) [])
      (XEvent.stop (lit "v") (some v.text)) =
      (midState b (some cn) (some v.num) [v.text], []) := by
    rw [step_stop_v (midState b (some cn) (some v.num) []) v.text hv.2.1 hv.2.2.2
      (truthyNat_some_pos hv.1) (truthyNat_some_pos hcn)]
    exact Prod.ext rfl rfl
  have hrun := runEvents_cons_eq h1 (runEvents_cons_eq h2 (runEvents_nil _))
  refine hrun.trans ?_
  rw [pendRows_some]
  simp

theorem run_verses (b : AbsBook) (hb : (alookup USFX_TO_OSIS b.usfxCode).isSome)
    (cn : Nat) (hcn : 0 < cn) :
    ∀ (vs : List AbsVerse), (∀ v ∈ vs, WFVerse v) →
    ∀ (p : Option AbsVerse), (∀ w, p = some w → WFVerse w) →
    runEvents (midState b (some cn) (pendVerse p) (pendBuf p))
        (eventsOfList (vs.map encodeVerseU)) =
      (midState b (some cn) (pendVerse (lastPend p vs)) (pendBuf (lastPend p vs)),
       flushSeq b cn p vs) := by
  intro vs
  induction vs with
  | nil => intro _ p _; exact runEvents_nil _
  | cons v vs ih =>
    intro hwf p hp
    have hsplit : eventsOfList ((v :: vs).map encodeVerseU) =
        eventsOf (encodeVerseU v) ++ eventsOfList (vs.map encodeVerseU) := rfl
    rw [hsplit]
    have h1 := run_verse b hb cn hcn p hp v (hwf v (List.mem_cons_self v vs))
    have h2 := ih (fun u hu => hwf u (List.mem_cons_of_mem _ hu)) (some v)
      (fun w hw => by
        injection hw with hw
        exact hw ▸ hwf v (List.mem_cons_self v vs))
    exact runEvents_append_eq h1 h2

theorem run_chapters (b : AbsBook) (hb : (alookup USFX_TO_OSIS b.usfxCode).isSome) :
    ∀ (chs : List AbsChapter), (∀ c ∈ chs, WFChapter c) →
    ∀ (ch0 : Option Nat) (p : Option AbsVerse),
    (∀ w, p = some w → WFVerse w) →
    (p ≠ none → ∃ cn, ch0 = some cn ∧ 0 < cn) →
    runEvents (midState b ch0 (pendVerse p) (pendBuf p))
        (eventsOfList (chs.flatMap encodeChapterU) ++ [XEvent.stop (lit "book") none]) =
      (initUState, pendRows b ch0 p ++
        chs.flatMap (fun c => c.verses.map (expectedRow b c.num))) := by
  intro chs
  induction chs with
  | nil =>
    intro _ ch0 p hp hch
    have h1 : stepEvent (midState b ch0 (pendVerse p) (pendBuf p))
        (XEvent.stop (lit "book") none) = (initUState, pendRows b ch0 p) := by
      rw [step_stop_book, flushRows_midState b hb ch0 p hp hch]
    have hrun := runEvents_cons_eq h1 (runEvents_nil _)
    refine hrun.trans ?_
    simp
  | cons c chs ih =>
    intro hwf ch0 p hp hch
    have hwfc := hwf c (List.mem_cons_self c chs)
    have hsplit : eventsOfList ((c :: chs).flatMap encodeChapterU) ++
        [XEvent.stop (lit "book") none] =
        XEvent.start (lit "c") [(lit "id", natDigits c.num)] none ::
        XEvent.stop (lit "c") none ::
        (eventsOfList (c.verses.map encodeVerseU) ++
          (eventsOfList (chs.flatMap encodeChapterU) ++ [XEvent.stop (lit "book") none])) := by
      rw [List.flatMap_cons, eventsOfList_append, List.append_assoc]
      rfl
    rw [hsplit]
    have h1 : stepEvent (midState b ch0 (pendVerse p) (pendBuf p))
        (XEvent.start (lit "c") [(lit "id", natDigits c.num)] none) =
        (midState b (some c.num) none [], pendRows b ch0 p) := by
      rw [step_start_c _ c.num hwfc.1, flushRows_midState b hb ch0 p hp hch]
      exact Prod.ext rfl rfl
    have h2 : stepEvent (midState b (some c.num) none [])
        (XEvent.stop (lit "c") none) = (midState b (some c.num) none [], []) :=
      step_stop_other _ _ (by decide)
    have h3 := run_verses b hb c.num hwfc.1 c.verses hwfc.2 none (by simp)
    have h4 := ih (fun x hx => hwf x (List.mem_cons_of_mem _ hx)) (some c.num)
      (lastPend none c.verses)
      (lastPend_wf c.verses none hwfc.2 (by simp))
      (fun _ => ⟨c.num, rfl, hwfc.1⟩)
    have hrun := runEvents_cons_eq h1 (runEvents_cons_eq h2 (runEvents_append_eq h3 h4))
    refine hrun.trans ?_
    have hrows : flushSeq b c.num none c.verses ++
        (pendRows b (some c.num) (lastPend none c.verses) ++
          chs.flatMap (fun c => c.verses.map (expectedRow b c.num))) =
        c.verses.map (expectedRow b c.num) ++
          chs.flatMap (fun c => c.verses.map (expectedRow b c.num)) := by
      rw [pendRows_some, ← List.append_assoc, flushSeq_append_last]
      rfl
    rw [List.nil_append, hrows, List.flatMap_cons]

theorem run_book (b : AbsBook) (hWFb : WFBook b) :
    runEvents initUState (eventsOf (encodeBookU b)) = (initUState, bookRows b) := by
  have hsplit : eventsOf (encodeBookU b) =
      XEvent.start (lit "book") [(lit "id", b.usfxCode)] none ::
      (eventsOfList (b.chapters.flatMap encodeChapterU) ++
        [XEvent.stop (lit "book") none]) := rfl
  rw [hsplit]
  have h1 : stepEvent initUState
      (XEvent.start (lit "book") [(lit "id", b.usfxCode)] none) =
      (midState b none none [], []) := by
    rw [step_start_book_known initUState rfl b hWFb.1]
    exact Prod.ext rfl rfl
  have h2 := run_chapters b hWFb.1 b.chapters hWFb.2 none none
    (fun w hw => absurd hw (by simp)) (fun h => absurd rfl h)
  exact runEvents_cons_eq h1 h2

theorem run_books : ∀ (bible : List AbsBook), WFBible bible →
    runEvents initUState (eventsOfList (bible.map encodeBookU)) =
      (initUState, bible.flatMap bookRows) := by
  intro bible
  induction bible with
  | nil => intro _; exact runEvents_nil _
  | cons b bs ih =>
    intro h
    have hsplit : eventsOfList ((b :: bs).map encodeBookU) =
        eventsOf (encodeBookU b) ++ eventsOfList (bs.map encodeBookU) := rfl
    rw [hsplit]
    exact runEvents_append_eq (run_book b (h b (List.mem_cons_self b bs)))
      (ih (fun x hx => h x (List.mem_cons_of_mem _ hx)))

/-- C2: for every well-formed abstract verse content (books with known USFX
codes, positive chapter and verse numbers, and non-empty canonical texts),
the DOM extractor run on the DOM-dialect encoding and the streaming
extractor run on the milestone-dialect encoding return exactly the same
list of verse rows — same identifiers, book display names, chapter and
verse numbers, and canonical texts. -/
theorem c2_cross_dialect_equivalence (bible : List AbsBook) (hWF : WFBible bible) :
    ImportKjv.parse_osis (encodeDOM bible) = parse_usfx_stream (encodeUSFX bible) := by
  rw [c2_dom_eq bible hWF]
  unfold parse_usfx_stream
  have hsplit : eventsOf (encodeUSFX bible) =
      XEvent.start (lit "usfx") [] none ::
      (eventsOfList (bible.map encodeBookU) ++ [XEvent.stop (lit "usfx") none]) := rfl
  rw [hsplit]
  have h1 : stepEvent initUState (XEvent.start (lit "usfx") [] none) = (initUState, []) :=
    step_start_plain initUState (lit "usfx") [] (fun h => absurd h.1 (by decide))
      (fun h => h.elim (fun h => absurd h (by decide)) (fun h => absurd h (by decide)))
      (fun h => h.elim (fun h => absurd h (by decide)) (fun h => absurd h (by decide)))
  have h3 : stepEvent initUState (XEvent.stop (lit "usfx") none) = (initUState, []) :=
    step_stop_other initUState (lit "usfx") (by decide)
  have hrun := runEvents_cons_eq h1
    (runEvents_append_eq (run_books bible hWF) (runEvents_cons_eq h3 (runEvents_nil _)))
  rw [hrun]
  simp

/-- C2 (witness): the two extractors agree on the concrete one-verse
content Genesis 1:1. -/
theorem c2_witness :
    ImportKjv.parse_osis (encodeDOM
      [⟨lit "GEN", [⟨1, [⟨1, lit "In the beginning"⟩]⟩]⟩]) =
    parse_usfx_stream (encodeUSFX
      [⟨lit "GEN", [⟨1, [⟨1, lit "In the beginning"⟩]⟩]⟩]) :=
  c2_cross_dialect_equivalence
    [⟨lit "GEN", [⟨1, [⟨1, lit "In the beginning"⟩]⟩]⟩] (by decide)

end Bible
